import Mathlib

/-!
# TVM assembly AST (`compiler/libsolidity/codegen/TvmAst.cpp`)

A shallow embedding of the node factories of `TvmAst.cpp` and the properties
established about them.

Conventions of the embedding

* `int` values are `Int`; the factories only compare them with constants, so
  no machine arithmetic is involved.  The one place where the width of `int`
  matters, `boost::lexical_cast<int>`, checks the 32-bit range explicitly.
* `std::string` is `String`; the byte-level operations used by the source
  (`find(' ')`, splitting at `';'`, trimming and tokenising at ASCII white
  space) act on the ASCII range only, so they are written over the character
  list of the string.
* A function that can throw returns `Except Err _`: `solAssert` throws
  `InternalCompilerError`, `solUnimplemented` throws
  `UnimplementedFeatureError`, `boost::lexical_cast` throws
  `bad_lexical_cast`, `std::vector::at` throws `out_of_range`.
* `Pointer<T>` (a shared pointer that may be null) is `Option T`.
* Default arguments that are declared in `TvmAst.hpp` only (the operands a
  caller of the `Stack` constructor omits, the purity flag a caller of the
  `GenOpcode` constructor omits) are parameters of the factories.
* A visitor is a pair of callbacks on a state of its own; `accept` threads that
  state through the tree and returns `none` where the source dereferences a
  null pointer.  What a traversal calls is read from the log of the recording
  visitor, which wraps any visitor and notes every callback it receives.
-/

namespace TvmAst

/-! ## Errors -/

/-- The exceptions the functions of `TvmAst.cpp` can raise. -/
inductive Err where
  /-- Raised by `solAssert`. -/
  | InternalCompilerError
  /-- Raised by `solUnimplemented`. -/
  | UnimplementedFeatureError
  /-- Raised by `boost::lexical_cast`. -/
  | bad_lexical_cast
  /-- Raised by `std::vector::at`. -/
  | out_of_range
  deriving DecidableEq, Repr

/-! ## Stack nodes and their factories -/

/-- The members of `Stack::Opcode` that `TvmAst.cpp` constructs. -/
inductive StackOpcode where
  | DROP | POP_S | BLKPUSH | PUSH_S | DUP2 | PUSH2_S | PUSH3_S | OVER2
  | XCHG_S0 | XCHG_S_S | BLKDROP2 | REVERSE | ROT | ROTREV
  deriving DecidableEq, Repr

/-- A `Stack` node: `Stack::Stack(opcode, i, j, k)` stores its four arguments. -/
structure Stack where
  m_opcode : StackOpcode
  m_i : Int
  m_j : Int
  m_k : Int
  deriving DecidableEq, Repr

/-- Source: `make_DROP`. -/
def make_DROP (unset : Int) (cnt : Int) : Except Err Stack :=
  if cnt ≥ 1 then .ok ⟨.DROP, cnt, unset, unset⟩
  else .error .InternalCompilerError

/-- Source: `make_POP`. -/
def make_POP (unset : Int) (i : Int) : Except Err Stack :=
  if i ≥ 1 ∧ i ≤ 255 then .ok ⟨.POP_S, i, unset, unset⟩
  else .error .InternalCompilerError

/-- Source: `make_PUSH`. -/
def make_PUSH (unset : Int) (i : Int) : Except Err Stack :=
  if 0 ≤ i ∧ i ≤ 255 then .ok ⟨.PUSH_S, i, unset, unset⟩
  else .error .InternalCompilerError

/-- Source: `make_BLKPUSH`. -/
def make_BLKPUSH (unset : Int) (qty index : Int) : Except Err Stack :=
  if qty ≥ 1 ∧ qty ≤ 15 then
    if index ≥ 0 ∧ index ≤ 15 then
      if qty = 1 then make_PUSH unset index
      else .ok ⟨.BLKPUSH, qty, index, unset⟩
    else .error .InternalCompilerError
  else .error .InternalCompilerError

/-- Source: `make_DUP2`. -/
def make_DUP2 (unset : Int) : Stack := ⟨.DUP2, unset, unset, unset⟩

/-- Source: `make_PUSH2`. -/
def make_PUSH2 (unset : Int) (i j : Int) : Except Err Stack :=
  if 0 ≤ i ∧ i ≤ 15 then
    if 0 ≤ j ∧ j ≤ 15 then .ok ⟨.PUSH2_S, i, j, unset⟩
    else .error .InternalCompilerError
  else .error .InternalCompilerError

/-- Source: `make_PUSH3`. -/
def make_PUSH3 (i j k : Int) : Except Err Stack :=
  if 0 ≤ i ∧ i ≤ 15 then
    if 0 ≤ j ∧ j ≤ 15 then
      if 0 ≤ k ∧ k ≤ 15 then .ok ⟨.PUSH3_S, i, j, k⟩
      else .error .InternalCompilerError
    else .error .InternalCompilerError
  else .error .InternalCompilerError

/-- Source: `make_OVER2`. -/
def make_OVER2 (unset : Int) : Stack := ⟨.OVER2, unset, unset, unset⟩

/-- Source: `make_XCH_S`. -/
def make_XCH_S (unset : Int) (i : Int) : Except Err Stack :=
  if i ≥ 1 ∧ i ≤ 255 then .ok ⟨.XCHG_S0, i, unset, unset⟩
  else .error .InternalCompilerError

/-- Source: `make_XCH_S_S`. -/
def make_XCH_S_S (unset : Int) (i j : Int) : Stack := ⟨.XCHG_S_S, i, j, unset⟩

/-- Source: `make_BLKDROP2`. -/
def make_BLKDROP2 (unset : Int) (droppedCount leftCount : Int) : Except Err Stack :=
  if 1 ≤ droppedCount ∧ droppedCount ≤ 15 then
    if 0 ≤ leftCount ∧ leftCount ≤ 15 then
      if leftCount = 1 ∧ droppedCount = 1 then .ok ⟨.POP_S, 1, unset, unset⟩
      else .ok ⟨.BLKDROP2, droppedCount, leftCount, unset⟩
    else .error .InternalCompilerError
  else .error .InternalCompilerError

/-- Source: `make_reverse`. -/
def make_reverse (unset : Int) (i j : Int) : Stack := ⟨.REVERSE, i, j, unset⟩

/-- Source: `makeROT`. -/
def makeROT (unset : Int) : Stack := ⟨.ROT, unset, unset, unset⟩

/-- Source: `makeROTREV`. -/
def makeROTREV (unset : Int) : Stack := ⟨.ROTREV, unset, unset, unset⟩

/-! ## Strings -/

/-- The classification `std::isspace` of the "C" locale, which both the stream
extraction `>>` and `boost::algorithm::trim_copy` use. -/
def isspace (c : Char) : Bool :=
  c == ' ' || c == '\t' || c == '\n' || c == '\x0b' || c == '\x0c' || c == '\r'

/-- One formatted extraction `stream >> word`: leading white space is skipped and
the characters up to the next white space are read.  The result is the word
(empty when the stream holds no further word) and the rest of the stream. -/
def extractWord (s : List Char) : List Char × List Char :=
  let t := s.dropWhile isspace
  (t.takeWhile (fun c => !isspace c), t.dropWhile (fun c => !isspace c))

/-- The block `std::istringstream iss(cmd); iss >> op >> param;` of `gen` and
`make_THROW`: the first two white-space delimited words of `cmd`. -/
def readOpParam (cmd : String) : String × String :=
  let r := extractWord cmd.data
  (⟨r.1⟩, ⟨(extractWord r.2).1⟩)

/-- Position search `std::string::find(c)`: the position of the first `c`, or `npos` (`none`). -/
def find : List Char → Char → Option Nat
  | [], _ => none
  | x :: xs, c => if x = c then some 0 else (find xs c).map (· + 1)

/-- Prefix `s.substr(0, pos)`, where `pos` may be `npos`. -/
def substrTo (s : List Char) (pos : Option Nat) : List Char :=
  match pos with
  | none => s
  | some p => s.take p

/-- Trimming with `boost::algorithm::trim_copy`: white space removed at both ends. -/
def trim_copy (s : List Char) : String :=
  ⟨((s.dropWhile isspace).reverse.dropWhile isspace).reverse⟩

/-- Modelled from the spec: `split` of `TVMCommons`, which is not part of
`TvmAst.cpp`.  In the words of the specification the line is split "at the
first unescaped `;` to isolate an optional trailing comment (preserved
verbatim)": a line without the separator is one piece, and a line with the
separator is two pieces, the text before the first separator and the text
after it.  Neither the specification nor the source defines an escape, so
every separator counts as unescaped. -/
def split (s : String) (sep : Char) : List String :=
  match find s.data sep with
  | none => [s]
  | some p => [⟨s.data.take p⟩, ⟨s.data.drop (p + 1)⟩]

/-- The number a string of decimal digits denotes. -/
def decimalValue (ds : List Char) : Nat :=
  ds.foldl (fun acc c => 10 * acc + (c.toNat - '0'.toNat)) 0

/-- The value of a non-empty string of decimal digits that fits `unsigned int`
(`lcast_ret_unsigned` of Boost). -/
def parseUnsigned (ds : List Char) : Option Nat :=
  if ds ≠ [] ∧ ds.all Char.isDigit then
    if decimalValue ds ≤ 4294967295 then some (decimalValue ds) else none
  else none

/-- Conversion `boost::lexical_cast<int>(s)`: an optional sign followed by decimal digits
and nothing else, with a value in the range of a 32-bit `int`. -/
def lexical_cast_int (s : String) : Except Err Int :=
  match s.data with
  | [] => .error .bad_lexical_cast
  | c :: cs =>
    let has_minus : Bool := c == '-'
    let digits := if has_minus || c == '+' then cs else c :: cs
    match parseUnsigned digits with
    | none => .error .bad_lexical_cast
    | some v =>
      if has_minus then
        if v ≤ 2147483648 then .ok (-(v : Int)) else .error .bad_lexical_cast
      else
        if v ≤ 2147483647 then .ok (v : Int) else .error .bad_lexical_cast

/-! ## Generic opcodes -/

/-- A `GenOpcode` node. -/
structure GenOpcode where
  m_opcode : String
  m_arg : String
  m_comment : String
  m_take : Int
  m_ret : Int
  m_isPure : Bool
  deriving DecidableEq, Repr

/-- Source: the constructor `GenOpcode::GenOpcode(opcode, take, ret, _isPure)`. -/
def GenOpcode.ctor (opcode : String) (take ret : Int) (_isPure : Bool) :
    Except Err GenOpcode :=
  let lines := split opcode ';'
  if lines.length ≤ 2 then
    match lines with
    | [] => .error .out_of_range
    | line0 :: rest =>
      let pos := find line0.data ' '
      let m_opcode := trim_copy (substrTo line0.data pos)
      let m_arg :=
        match pos with
        | some p => trim_copy (line0.data.drop (p + 1))
        | none => ""
      let m_comment :=
        match rest with
        | [line1] => ";" ++ line1
        | _ => ""
      .ok ⟨m_opcode, m_arg, m_comment, take, ret, _isPure⟩
  else .error .InternalCompilerError

/-- Source: `GenOpcode::fullOpcode`. -/
def GenOpcode.fullOpcode (g : GenOpcode) : String :=
  let ret := g.m_opcode
  let ret := if g.m_arg ≠ "" then ret ++ (" " ++ g.m_arg) else ret
  let ret := if g.m_comment ≠ "" then ret ++ (" " ++ g.m_comment) else ret
  ret

/-- The local struct `OpcodeParams` of `gen`. -/
structure OpcodeParams where
  take : Int
  ret : Int
  isPure : Bool
  deriving DecidableEq, Repr

/-- The two-argument form `{take, ret}` of an `OpcodeParams` initialiser: the
constructor's default `_isPure = false`. -/
def OpcodeParams.of (take ret : Int) : OpcodeParams := ⟨take, ret, false⟩

/-- A table entry `{name, {take, ret}}`. -/
def entry (name : String) (take ret : Int) : String × OpcodeParams :=
  (name, OpcodeParams.of take ret)

/-- A table entry `{name, {take, ret, isPure}}`. -/
def entry3 (name : String) (take ret : Int) (isPure : Bool) : String × OpcodeParams :=
  (name, ⟨take, ret, isPure⟩)

/-- The initialiser list of the static table `opcodes` of `gen`, in source order
(`LDDICT` is listed twice there). -/
def opcodes : List (String × OpcodeParams) := [
    entry "ACCEPT" 0 0,
    entry "COMMIT" 0 0,
    entry "PRINTSTR" 0 0,

    entry3 "BLOCKLT" 0 1 true,
    entry3 "FALSE" 0 1 true,
    entry3 "GETPARAM" 0 1 true,
    entry3 "LTIME" 0 1 true,
    entry3 "MYADDR" 0 1 true,
    entry3 "NEWC" 0 1 true,
    entry3 "NEWDICT" 0 1 true,
    entry3 "NIL" 0 1 true,
    entry3 "NOW" 0 1 true,
    entry3 "NULL" 0 1 true,
    entry3 "PUSHINT" 0 1 true,
    entry3 "PUSHPOW2DEC" 0 1 true,
    entry3 "PUSHSLICE" 0 1 true,
    entry3 "RANDSEED" 0 1 true,
    entry "RANDU256" 0 1,
    entry3 "TRUE" 0 1 true,

    entry "ADDRAND" 1 0,
    entry "ENDS" 1 0,
    entry "SETCODE" 1 0,
    entry "SETRAND" 1 0,

    entry "ABS" 1 1,
    entry "ADDCONST" 1 1,
    entry "BBITS" 1 1,
    entry "BDEPTH" 1 1,
    entry "BINDUMP" 1 1,
    entry "BLESS" 1 1,
    entry "BREFS" 1 1,
    entry "BREMBITS" 1 1,
    entry "BREMREFS" 1 1,
    entry "CDEPTH" 1 1,
    entry "CTOS" 1 1,
    entry "DEC" 1 1,
    entry "DICTEMPTY" 1 1,
    entry "ENDC" 1 1,
    entry "EQINT" 1 1,
    entry "FIRST" 1 1,
    entry "FITS" 1 1,
    entry "GTINT" 1 1,
    entry "HASHCU" 1 1,
    entry "HASHSU" 1 1,
    entry "HEXDUMP" 1 1,
    entry "INC" 1 1,
    entry "INDEX" 1 1,
    entry "INDEX2" 1 1,
    entry "INDEX3" 1 1,
    entry "ISNEG" 1 1,
    entry "ISNNEG" 1 1,
    entry "ISNPOS" 1 1,
    entry "ISNULL" 1 1,
    entry "ISPOS" 1 1,
    entry "ISZERO" 1 1,
    entry "LESSINT" 1 1,
    entry "MODPOW2" 1 1,
    entry "MULCONST" 1 1,
    entry "NEGATE" 1 1,
    entry "NEQINT" 1 1,
    entry "NOT" 1 1,
    entry "BITNOT" 1 1,
    entry "PARSEMSGADDR" 1 1,
    entry "PLDDICT" 1 1,
    entry "PLDI" 1 1,
    entry "PLDREF" 1 1,
    entry "PLDREFIDX" 1 1,
    entry "PLDU" 1 1,
    entry "RAND" 1 1,
    entry "SBITS" 1 1,
    entry "SDEMPTY" 1 1,
    entry "SDEPTH" 1 1,
    entry "SECOND" 1 1,
    entry "SEMPTY" 1 1,
    entry "SGN" 1 1,
    entry "SHA256U" 1 1,
    entry "SREFS" 1 1,
    entry "STONE" 1 1,
    entry "STRDUMP" 1 1,
    entry "STSLICECONST" 1 1,
    entry "STZERO" 1 1,
    entry "THIRD" 1 1,
    entry "TLEN" 1 1,
    entry "UFITS" 1 1,

    entry "BBITREFS" 1 2,
    entry "BREMBITREFS" 1 2,
    entry "LDDICT" 1 2,
    entry "LDDICT" 1 2,
    entry "LDGRAMS" 1 2,
    entry "LDI" 1 2,
    entry "LDMSGADDR" 1 2,
    entry "LDOPTREF" 1 2,
    entry "LDREF" 1 2,
    entry "LDREFRTOS" 1 2,
    entry "LDSLICE" 1 2,
    entry "LDU" 1 2,
    entry "LDVARUINT32" 1 2,
    entry "REWRITESTDADDR" 1 2,
    entry "SBITREFS" 1 2,
    entry "TPOP" 1 2,
    entry "UNPAIR" 1 2,

    entry "RAWRESERVE" 2 0,
    entry "SENDRAWMSG" 2 0,

    entry "ADD" 2 1,
    entry "AND" 2 1,
    entry "CMP" 2 1,
    entry "DIV" 2 1,
    entry "DIVC" 2 1,
    entry "DIVR" 2 1,
    entry "EQUAL" 2 1,
    entry "GEQ" 2 1,
    entry "GREATER" 2 1,
    entry "INDEXVAR" 2 1,
    entry "LEQ" 2 1,
    entry "LESS" 2 1,
    entry "MAX" 2 1,
    entry "MIN" 2 1,
    entry "MOD" 2 1,
    entry "MUL" 2 1,
    entry "NEQ" 2 1,
    entry "OR" 2 1,
    entry "PAIR" 2 1,
    entry "SCHKBITSQ" 2 1,
    entry "SCHKREFSQ" 2 1,
    entry "SDEQ" 2 1,
    entry "SDLEXCMP" 2 1,
    entry "SDSKIPFIRST" 2 1,
    entry "SETINDEX" 2 1,
    entry "SETINDEXQ" 2 1,
    entry "STB" 2 1,
    entry "STBR" 2 1,
    entry "STBREF" 2 1,
    entry "STBREFR" 2 1,
    entry "STDICT" 2 1,
    entry "STGRAMS" 2 1,
    entry "STI" 2 1,
    entry "STIR" 2 1,
    entry "STONES" 2 1,
    entry "STOPTREF" 2 1,
    entry "STREF" 2 1,
    entry "STREFR" 2 1,
    entry "STSLICE" 2 1,
    entry "STSLICER" 2 1,
    entry "STU" 2 1,
    entry "STUR" 2 1,
    entry "STVARUINT32" 2 1,
    entry "STZEROES" 2 1,
    entry "SUB" 2 1,
    entry "SUBR" 2 1,
    entry "TPUSH" 2 1,
    entry "XOR" 2 1,

    entry "DIVMOD" 2 2,
    entry "LDIX" 2 2,
    entry "LDSLICEX" 2 2,
    entry "LDUX" 2 2,
    entry "MINMAX" 2 2,

    entry "CDATASIZE" 2 3,
    entry "SDATASIZE" 2 3,

    entry "RAWRESERVEX" 3 0,

    entry "CHKSIGNS" 3 1,
    entry "CHKSIGNU" 3 1,
    entry "MULDIV" 3 1,
    entry "MULDIVC" 3 1,
    entry "MULDIVR" 3 1,
    entry "SCHKBITREFSQ" 3 1,
    entry "SETINDEXVAR" 3 1,
    entry "SSKIPFIRST" 3 1,
    entry "STUX" 3 1,
    entry "TRIPLE" 3 1,

    entry "DICTDEL" 3 2,
    entry "DICTIDEL" 3 2,
    entry "DICTUDEL" 3 2,
    entry "MULDIVMOD" 3 2,
    entry "SPLIT" 3 2
  ]

/-- Lookup `opcodes.at(op)` when `opcodes.count(op)` is not zero: the map keeps the
first entry of the initialiser list for a key. -/
def opcodesAt (op : String) : Option OpcodeParams :=
  opcodes.lookup op

/-- The lambda `dictReplaceOrAdd` of `gen`; it compares the candidates with `cmd`. -/
def dictReplaceOrAdd (cmd : String) : Bool :=
  ["", "I", "U"].any fun key =>
    ["REPLACE", "ADD"].any fun op =>
      ["", "REF", "B"].any fun suf =>
        decide ("DICT" ++ key ++ op ++ suf = cmd)

/-- The lambda `dictSet` of `gen`; it compares the candidates with `cmd`. -/
def dictSet (cmd : String) : Bool :=
  ["", "I", "U"].any fun key =>
    ["", "REF", "B"].any fun suf =>
      decide ("DICT" ++ key ++ "SET" ++ suf = cmd)

/-- Source: `gen`.  `pureDflt` is the purity flag of a `GenOpcode` constructed
without one.  The closing `solAssert(opcode != nullptr)` cannot fail. -/
def gen (pureDflt : Bool) (cmd : String) : Except Err GenOpcode :=
  let op := (readOpParam cmd).1
  let param := (readOpParam cmd).2
  let f := fun (pattert : String) => decide (op = pattert)
  match opcodesAt op with
  | some params => GenOpcode.ctor cmd params.take params.ret params.isPure
  | none =>
    if dictSet cmd then GenOpcode.ctor cmd 4 1 pureDflt
    else if dictReplaceOrAdd cmd then GenOpcode.ctor cmd 4 2 pureDflt
    else if f "TUPLE" then
      match lexical_cast_int param with
      | .error e => .error e
      | .ok ret => GenOpcode.ctor cmd ret 1 pureDflt
    else if f "UNTUPLE" then
      match lexical_cast_int param with
      | .error e => .error e
      | .ok ret => GenOpcode.ctor cmd 1 ret pureDflt
    else if f "LSHIFT" || f "RSHIFT" then
      if param = "" then GenOpcode.ctor cmd 2 1 pureDflt
      else GenOpcode.ctor cmd 1 1 pureDflt
    else if f "MULRSHIFT" then
      if param = "" then GenOpcode.ctor cmd 3 1 pureDflt
      else GenOpcode.ctor cmd 2 1 pureDflt
    else .error .UnimplementedFeatureError

/-! ## Control-flow instructions, globals, frame kinds -/

/-- Modelled from the spec: the node `ConFlowInst` (the control-flow instruction of
the specification, with "the same (consumed, produced) shape" as a generic
opcode), whose constructor is declared in `TvmAst.hpp`.  The node records the
three arguments the factories pass to the constructor: the line and the two
counts. -/
structure ConFlowInst where
  opcode : String
  take : Int
  ret : Int
  deriving DecidableEq, Repr

/-- Source: `make_RET`. -/
def make_RET : ConFlowInst := ⟨"RET", 0, 0⟩

/-- Source: `make_IFRET`. -/
def make_IFRET : ConFlowInst := ⟨"IFRET", 1, 0⟩

/-- Source: `make_IFNOTRET`. -/
def make_IFNOTRET : ConFlowInst := ⟨"IFNOTRET", 1, 0⟩

/-- Source: `make_THROW`. -/
def make_THROW (cmd : String) : Except Err ConFlowInst :=
  let op := (readOpParam cmd).1
  let f := fun (pattert : String) => decide (op = pattert)
  if f "THROW" then .ok ⟨cmd, 0, 0⟩
  else if f "THROWANY" then .ok ⟨cmd, 1, 0⟩
  else if f "THROWANYIF" then .ok ⟨cmd, 2, 0⟩
  else if f "THROWANYIFNOT" then .ok ⟨cmd, 2, 0⟩
  else if f "THROWARG" then .ok ⟨cmd, 1, 0⟩
  else if f "THROWARGANY" then .ok ⟨cmd, 2, 0⟩
  else if f "THROWARGANYIF" then .ok ⟨cmd, 3, 0⟩
  else if f "THROWARGANYIFNOT" then .ok ⟨cmd, 3, 0⟩
  else if f "THROWARGIF" then .ok ⟨cmd, 2, 0⟩
  else if f "THROWARGIFNOT" then .ok ⟨cmd, 2, 0⟩
  else if f "THROWIF" then .ok ⟨cmd, 1, 0⟩
  else if f "THROWIFNOT" then .ok ⟨cmd, 1, 0⟩
  else .error .UnimplementedFeatureError

/-- The member of `Glob::Opcode` that `TvmAst.cpp` constructs. -/
inductive GlobOpcode where
  | SetOrSetVar
  deriving DecidableEq, Repr

/-- A `Glob` node: the mode and the index of the global variable. -/
structure Glob where
  m_opcode : GlobOpcode
  m_index : Int
  deriving DecidableEq, Repr

/-- Source: `make_setGlob`. -/
def make_setGlob (i : Int) : Glob := ⟨.SetOrSetVar, i⟩

/-- The enumeration `CodeBlock::Type`. -/
inductive CodeBlockType where
  | None | CALLREF | IFREF | PUSHCONT | PUSHREFCONT | IFJMPREF | IFNOTJMPREF
  | PUSHREF | IFNOTREF | CALLX
  deriving DecidableEq, Repr

/-- Source: `CodeBlock::toString`. -/
def CodeBlock.toString : CodeBlockType → Except Err String
  | .None => .error .UnimplementedFeatureError
  | .CALLREF => .ok "CALLREF"
  | .IFREF => .ok "IFREF"
  | .PUSHCONT => .ok "PUSHCONT"
  | .PUSHREFCONT => .ok "PUSHREFCONT"
  | .IFJMPREF => .ok "IFJMPREF"
  | .IFNOTJMPREF => .ok "IFNOTJMPREF"
  | .PUSHREF => .ok "PUSHREF"
  | .IFNOTREF => .ok "IFNOTREF"
  | .CALLX => .ok "CALLX"

/-! ## Conditionals -/

/-- The enumeration `TvmIfElse::Type` (declared in `TvmAst.hpp`): the six tags the
switch of `makeRevert` goes through, which are the six conditional variants of
the specification. -/
inductive TvmIfElseType where
  | IF | IFNOT | IFJMP | IFNOTJMP | IFELSE | IFELSE_WITH_JMP
  deriving DecidableEq, Repr

/-- Modelled from the spec: the node `Loc` (the debug location of the
specification: "source-position/line metadata", a leaf), declared in
`TvmAst.hpp`. -/
structure Loc where
  file : String
  line : Int
  deriving DecidableEq, Repr

/-- The leaf node `AsymGen`.  Its members are declared in `TvmAst.hpp` and are
not read by `TvmAst.cpp`; one string stands for them. -/
structure AsymGen where
  opcode : String
  deriving DecidableEq, Repr

/-- The leaf node `HardCode`.  Its members are declared in `TvmAst.hpp` and are
not read by `TvmAst.cpp`; the list of its lines stands for them. -/
structure HardCode where
  code : List String
  deriving DecidableEq, Repr

/-- The member of `PushCellOrSlice::Type` that `TvmAst.cpp` constructs. -/
inductive PushCellOrSliceType where
  | PUSHREF
  deriving DecidableEq, Repr

/-- Modelled from the spec: the two forms of the node `RepeatOrUntil` (the
counted loop of the specification), declared in `TvmAst.hpp`. -/
inductive RepeatOrUntilType where
  | Repeat | Until
  deriving DecidableEq, Repr

mutual
/-- The node kinds of `TvmAst.cpp`, one constructor for each class with an
`accept` method. -/
inductive TvmAstNode where
  | loc (node : Loc)
  | stack (node : Stack)
  | glob (node : Glob)
  | opaqueBlock (node : Opaque)
  | asymGen (node : AsymGen)
  | hardCode (node : HardCode)
  | genOpcode (node : GenOpcode)
  | conFlowInst (node : ConFlowInst)
  | pushCellOrSlice (node : PushCellOrSlice)
  | codeBlock (node : CodeBlock)
  | tvmIfElse (node : TvmIfElse)
  | repeatOrUntil (node : RepeatOrUntil)
  | whileLoop (node : While)
  | function (node : Function)
  | contract (node : Contract)
/-- A `CodeBlock`: a frame kind and the instructions in order. -/
inductive CodeBlock where
  | mk (type : CodeBlockType) (instructions : List TvmAstNode)
/-- A `TvmIfElse`: its type tag and the pointers to the true and the false body,
either of which may be null. -/
inductive TvmIfElse where
  | mk (type : TvmIfElseType) (trueBody falseBody : Option CodeBlock)
/-- A `PushCellOrSlice`: the three arguments of its constructor, the last of which
is the pointer to the child and may be null. -/
inductive PushCellOrSlice where
  | mk (type : PushCellOrSliceType) (blob : String) (child : Option PushCellOrSlice)
/-- Modelled from the spec: the node `Opaque`, declared in `TvmAst.hpp`, which
"wraps an arbitrary sub-block plus a declared external stack effect". -/
inductive Opaque where
  | mk (block : CodeBlock) (take ret : Int)
/-- Modelled from the spec: the node `RepeatOrUntil`, declared in `TvmAst.hpp`,
which owns "one body block". -/
inductive RepeatOrUntil where
  | mk (type : RepeatOrUntilType) (body : CodeBlock)
/-- Modelled from the spec: the node `While`, declared in `TvmAst.hpp`, which
owns "one condition block plus one body block". -/
inductive While where
  | mk (condition body : CodeBlock)
/-- Modelled from the spec: the node `Function`, declared in `TvmAst.hpp`: "a
name plus one owned CodeBlock". -/
inductive Function where
  | mk (name : String) (block : CodeBlock)
/-- The node `Contract`: the functions in order. -/
inductive Contract where
  | mk (functions : List Function)
end

/-- Source: `make_PUSHREF`. -/
def make_PUSHREF (data : String) : PushCellOrSlice := .mk .PUSHREF data none

/-- Source: `TvmIfElse::type()`. -/
def TvmIfElse.type : TvmIfElse → TvmIfElseType
  | .mk t _ _ => t

/-- Source: `TvmIfElse::trueBody()`. -/
def TvmIfElse.trueBody : TvmIfElse → Option CodeBlock
  | .mk _ b _ => b

/-- Source: `TvmIfElse::falseBody()`. -/
def TvmIfElse.falseBody : TvmIfElse → Option CodeBlock
  | .mk _ _ b => b

/-- Source: `makeRevert`.  A `TvmIfElse` constructed from a type and one body has
a null false body.  The switch covers every member of the enumeration, so the
closing `solUnimplemented` is not reached. -/
def makeRevert (node : TvmIfElse) : TvmIfElse :=
  match node.type with
  | .IF => .mk .IFNOT node.trueBody none
  | .IFNOT => .mk .IF node.trueBody none
  | .IFJMP => .mk .IFNOTJMP node.trueBody none
  | .IFNOTJMP => .mk .IFJMP node.trueBody none
  | .IFELSE => .mk .IFELSE node.falseBody node.trueBody
  | .IFELSE_WITH_JMP => .mk .IFELSE_WITH_JMP node.falseBody node.trueBody

/-! ## The visitor protocol -/

/-- The callbacks of `TvmAstVisitor` (declared in `TvmAstVisitor.hpp`), for a
visitor whose own state has type `σ`: the overloads `visit(Loc&)`,
`visit(Stack&)`, ..., one for each node class and each returning `bool`, are
one function on the sum of the node classes, and `endVisit(CodeBlock&)` is the
post-visit callback.  A callback reads and updates the state of the visitor. -/
structure TvmAstVisitor (σ : Type) where
  visit : TvmAstNode → σ → Bool × σ
  endVisit : CodeBlock → σ → σ

mutual
/-- The virtual call `node->accept(_visitor)` on a `Pointer<TvmAstNode>`: it runs
the `accept` of the class of the node.  The result is `none` when the traversal
dereferences a null pointer, which the source leaves undefined. -/
def TvmAstNode.accept {σ : Type} (v : TvmAstVisitor σ) : TvmAstNode → σ → Option σ
  | .loc n, s => some (v.visit (.loc n) s).2
  | .stack n, s => some (v.visit (.stack n) s).2
  | .glob n, s => some (v.visit (.glob n) s).2
  | .opaqueBlock n, s => Opaque.accept v n s
  | .asymGen n, s => some (v.visit (.asymGen n) s).2
  | .hardCode n, s => some (v.visit (.hardCode n) s).2
  | .genOpcode n, s => some (v.visit (.genOpcode n) s).2
  | .conFlowInst n, s => some (v.visit (.conFlowInst n) s).2
  | .pushCellOrSlice n, s => PushCellOrSlice.accept v n s
  | .codeBlock n, s => CodeBlock.accept v n s
  | .tvmIfElse n, s => TvmIfElse.accept v n s
  | .repeatOrUntil n, s => RepeatOrUntil.accept v n s
  | .whileLoop n, s => While.accept v n s
  | .function n, s => Function.accept v n s
  | .contract n, s => Contract.accept v n s
/-- Source: `Opaque::accept`. -/
def Opaque.accept {σ : Type} (v : TvmAstVisitor σ) : Opaque → σ → Option σ
  | .mk block take ret, s =>
    let r := v.visit (.opaqueBlock (.mk block take ret)) s
    if r.1 then CodeBlock.accept v block r.2 else some r.2
/-- Source: `PushCellOrSlice::accept`. -/
def PushCellOrSlice.accept {σ : Type} (v : TvmAstVisitor σ) :
    PushCellOrSlice → σ → Option σ
  | .mk type blob child, s =>
    let r := v.visit (.pushCellOrSlice (.mk type blob child)) s
    if r.1 then acceptChild v child r.2 else some r.2
/-- The statement `if (m_child) m_child->accept(_visitor)` of
`PushCellOrSlice::accept`. -/
def acceptChild {σ : Type} (v : TvmAstVisitor σ) : Option PushCellOrSlice → σ → Option σ
  | some child, s => PushCellOrSlice.accept v child s
  | none, s => some s
/-- Source: `CodeBlock::accept`. -/
def CodeBlock.accept {σ : Type} (v : TvmAstVisitor σ) : CodeBlock → σ → Option σ
  | .mk type instructions, s =>
    let r := v.visit (.codeBlock (.mk type instructions)) s
    if r.1 then
      match acceptInstructions v instructions r.2 with
      | some s' => some (v.endVisit (.mk type instructions) s')
      | none => none
    else some (v.endVisit (.mk type instructions) r.2)
/-- The loop `for (Pointer<TvmAstNode> node : m_instructions) node->accept(_visitor)`
of `CodeBlock::accept`. -/
def acceptInstructions {σ : Type} (v : TvmAstVisitor σ) : List TvmAstNode → σ → Option σ
  | [], s => some s
  | node :: rest, s =>
    match TvmAstNode.accept v node s with
    | some s' => acceptInstructions v rest s'
    | none => none
/-- Source: `TvmIfElse::accept`. -/
def TvmIfElse.accept {σ : Type} (v : TvmAstVisitor σ) : TvmIfElse → σ → Option σ
  | .mk type trueBody falseBody, s =>
    let r := v.visit (.tvmIfElse (.mk type trueBody falseBody)) s
    if r.1 then
      match acceptTrueBody v trueBody r.2 with
      | some s' => acceptFalseBody v falseBody s'
      | none => none
    else some r.2
/-- The statement `m_trueBody->accept(_visitor)` of `TvmIfElse::accept`: the
pointer is dereferenced without a test. -/
def acceptTrueBody {σ : Type} (v : TvmAstVisitor σ) : Option CodeBlock → σ → Option σ
  | some body, s => CodeBlock.accept v body s
  | none, _ => none
/-- The statement `if (m_falseBody) m_falseBody->accept(_visitor)` of
`TvmIfElse::accept`. -/
def acceptFalseBody {σ : Type} (v : TvmAstVisitor σ) : Option CodeBlock → σ → Option σ
  | some body, s => CodeBlock.accept v body s
  | none, s => some s
/-- Source: `RepeatOrUntil::accept`. -/
def RepeatOrUntil.accept {σ : Type} (v : TvmAstVisitor σ) : RepeatOrUntil → σ → Option σ
  | .mk type body, s =>
    let r := v.visit (.repeatOrUntil (.mk type body)) s
    if r.1 then CodeBlock.accept v body r.2 else some r.2
/-- Source: `While::accept`. -/
def While.accept {σ : Type} (v : TvmAstVisitor σ) : While → σ → Option σ
  | .mk condition body, s =>
    let r := v.visit (.whileLoop (.mk condition body)) s
    if r.1 then
      match CodeBlock.accept v condition r.2 with
      | some s' => CodeBlock.accept v body s'
      | none => none
    else some r.2
/-- Source: `Function::accept`. -/
def Function.accept {σ : Type} (v : TvmAstVisitor σ) : Function → σ → Option σ
  | .mk name block, s =>
    let r := v.visit (.function (.mk name block)) s
    if r.1 then CodeBlock.accept v block r.2 else some r.2
/-- Source: `Contract::accept`. -/
def Contract.accept {σ : Type} (v : TvmAstVisitor σ) : Contract → σ → Option σ
  | .mk functions, s =>
    let r := v.visit (.contract (.mk functions)) s
    if r.1 then acceptFunctions v functions r.2 else some r.2
/-- The loop `for (Pointer<Function>& node : m_functions) node->accept(_visitor)` of
`Contract::accept`. -/
def acceptFunctions {σ : Type} (v : TvmAstVisitor σ) : List Function → σ → Option σ
  | [], s => some s
  | node :: rest, s =>
    match Function.accept v node s with
    | some s' => acceptFunctions v rest s'
    | none => none
end

/-- One invocation of a callback of a visitor. -/
inductive Call where
  | visit (node : TvmAstNode)
  | endVisit (block : CodeBlock)

/-- The visitor `v` with a log: every callback appends its invocation to the log
and then does what the callback of `v` does. -/
def recording {σ : Type} (v : TvmAstVisitor σ) : TvmAstVisitor (σ × List Call) where
  visit node st := ((v.visit node st.1).1, ((v.visit node st.1).2, st.2 ++ [Call.visit node]))
  endVisit block st := (v.endVisit block st.1, st.2 ++ [Call.endVisit block])

/-- The nodes of the pre-visit invocations of a log, in order. -/
def visited : List Call → List TvmAstNode
  | [] => []
  | .visit node :: rest => node :: visited rest
  | .endVisit _ :: rest => visited rest

mutual
/-- The nodes of a tree in depth-first, left-to-right order, a node before its
children: the instructions of a block in sequence, the condition of a `While`
before its body, the true body of a conditional before its false body, the
functions of a contract in list order. -/
def TvmAstNode.preorder : TvmAstNode → List TvmAstNode
  | .loc n => [.loc n]
  | .stack n => [.stack n]
  | .glob n => [.glob n]
  | .opaqueBlock n => Opaque.preorder n
  | .asymGen n => [.asymGen n]
  | .hardCode n => [.hardCode n]
  | .genOpcode n => [.genOpcode n]
  | .conFlowInst n => [.conFlowInst n]
  | .pushCellOrSlice n => PushCellOrSlice.preorder n
  | .codeBlock n => CodeBlock.preorder n
  | .tvmIfElse n => TvmIfElse.preorder n
  | .repeatOrUntil n => RepeatOrUntil.preorder n
  | .whileLoop n => While.preorder n
  | .function n => Function.preorder n
  | .contract n => Contract.preorder n
/-- Pre-order of an `Opaque` node. -/
def Opaque.preorder : Opaque → List TvmAstNode
  | .mk block take ret => .opaqueBlock (.mk block take ret) :: CodeBlock.preorder block
/-- Pre-order of a `PushCellOrSlice` node. -/
def PushCellOrSlice.preorder : PushCellOrSlice → List TvmAstNode
  | .mk type blob child => .pushCellOrSlice (.mk type blob child) :: preorderChild child
/-- Pre-order of the child of a `PushCellOrSlice` node, if there is one. -/
def preorderChild : Option PushCellOrSlice → List TvmAstNode
  | some child => PushCellOrSlice.preorder child
  | none => []
/-- Pre-order of a `CodeBlock`. -/
def CodeBlock.preorder : CodeBlock → List TvmAstNode
  | .mk type instructions =>
    .codeBlock (.mk type instructions) :: preorderInstructions instructions
/-- Pre-order of a sequence of instructions. -/
def preorderInstructions : List TvmAstNode → List TvmAstNode
  | [] => []
  | node :: rest => TvmAstNode.preorder node ++ preorderInstructions rest
/-- Pre-order of a conditional. -/
def TvmIfElse.preorder : TvmIfElse → List TvmAstNode
  | .mk type trueBody falseBody =>
    .tvmIfElse (.mk type trueBody falseBody) :: (preorderBody trueBody ++ preorderBody falseBody)
/-- Pre-order of a body of a conditional, if there is one. -/
def preorderBody : Option CodeBlock → List TvmAstNode
  | some body => CodeBlock.preorder body
  | none => []
/-- Pre-order of a `RepeatOrUntil` node. -/
def RepeatOrUntil.preorder : RepeatOrUntil → List TvmAstNode
  | .mk type body => .repeatOrUntil (.mk type body) :: CodeBlock.preorder body
/-- Pre-order of a `While` node. -/
def While.preorder : While → List TvmAstNode
  | .mk condition body =>
    .whileLoop (.mk condition body) :: (CodeBlock.preorder condition ++ CodeBlock.preorder body)
/-- Pre-order of a `Function`. -/
def Function.preorder : Function → List TvmAstNode
  | .mk name block => .function (.mk name block) :: CodeBlock.preorder block
/-- Pre-order of a `Contract`. -/
def Contract.preorder : Contract → List TvmAstNode
  | .mk functions => .contract (.mk functions) :: preorderFunctions functions
/-- Pre-order of a sequence of functions. -/
def preorderFunctions : List Function → List TvmAstNode
  | [] => []
  | node :: rest => Function.preorder node ++ preorderFunctions rest
end

mutual
/-- Every conditional of the tree has a true body, so that the traversal
dereferences no null pointer. -/
def TvmAstNode.wellFormed : TvmAstNode → Bool
  | .loc _ => true
  | .stack _ => true
  | .glob _ => true
  | .opaqueBlock n => Opaque.wellFormed n
  | .asymGen _ => true
  | .hardCode _ => true
  | .genOpcode _ => true
  | .conFlowInst _ => true
  | .pushCellOrSlice _ => true
  | .codeBlock n => CodeBlock.wellFormed n
  | .tvmIfElse n => TvmIfElse.wellFormed n
  | .repeatOrUntil n => RepeatOrUntil.wellFormed n
  | .whileLoop n => While.wellFormed n
  | .function n => Function.wellFormed n
  | .contract n => Contract.wellFormed n
/-- Well-formedness below an `Opaque` node. -/
def Opaque.wellFormed : Opaque → Bool
  | .mk block _ _ => CodeBlock.wellFormed block
/-- Well-formedness of the instructions of a `CodeBlock`. -/
def CodeBlock.wellFormed : CodeBlock → Bool
  | .mk _ instructions => wellFormedInstructions instructions
/-- Well-formedness of a sequence of instructions. -/
def wellFormedInstructions : List TvmAstNode → Bool
  | [] => true
  | node :: rest => TvmAstNode.wellFormed node && wellFormedInstructions rest
/-- A conditional is well formed when it has a true body and its bodies are well
formed. -/
def TvmIfElse.wellFormed : TvmIfElse → Bool
  | .mk _ trueBody falseBody => wellFormedTrueBody trueBody && wellFormedFalseBody falseBody
/-- The true body is there and well formed. -/
def wellFormedTrueBody : Option CodeBlock → Bool
  | some body => CodeBlock.wellFormed body
  | none => false
/-- The false body, if there is one, is well formed. -/
def wellFormedFalseBody : Option CodeBlock → Bool
  | some body => CodeBlock.wellFormed body
  | none => true
/-- Well-formedness below a `RepeatOrUntil` node. -/
def RepeatOrUntil.wellFormed : RepeatOrUntil → Bool
  | .mk _ body => CodeBlock.wellFormed body
/-- Well-formedness below a `While` node. -/
def While.wellFormed : While → Bool
  | .mk condition body => CodeBlock.wellFormed condition && CodeBlock.wellFormed body
/-- Well-formedness below a `Function`. -/
def Function.wellFormed : Function → Bool
  | .mk _ block => CodeBlock.wellFormed block
/-- Well-formedness of the functions of a `Contract`. -/
def Contract.wellFormed : Contract → Bool
  | .mk functions => wellFormedFunctions functions
/-- Well-formedness of a sequence of functions. -/
def wellFormedFunctions : List Function → Bool
  | [] => true
  | node :: rest => Function.wellFormed node && wellFormedFunctions rest
end

/-- The node of a call is not larger than `k`: a bound on where in a tree a
callback is invoked. -/
def Call.Within (k : Nat) : Call → Prop
  | .visit node => sizeOf node ≤ k
  | .endVisit block => sizeOf (TvmAstNode.codeBlock block) ≤ k

/-- The traversal `acc` of `x` by the recording visitor, from any state of `v` and
any log, ends and appends a trace that does not depend on the log; when every
pre-visit callback of `v` returns `true`, the pre-visit invocations of the
trace are on the nodes `pre x`, in that order; and every call of the trace is
on a node of size at most `size x`. -/
def TraceSpec {σ α : Type} (v : TvmAstVisitor σ)
    (acc : TvmAstVisitor (σ × List Call) → α → σ × List Call → Option (σ × List Call))
    (pre : α → List TvmAstNode) (size : α → Nat) (x : α) : Prop :=
  ∀ s : σ, ∃ (s' : σ) (tr : List Call),
    (∀ log, acc (recording v) x (s, log) = some (s', log ++ tr)) ∧
    ((∀ m t, (v.visit m t).1 = true) → visited tr = pre x) ∧
    (∀ c ∈ tr, Call.Within (size x) c)

/-! ## Theorems -/

/-! ## Lemmas on the string operations -/

theorem dropWhile_isspace_self {l : List Char} (h : ∀ c ∈ l, isspace c = false) :
    l.dropWhile isspace = l := by
  cases l with
  | nil => rfl
  | cons x xs => simp [List.dropWhile, h x (List.mem_cons_self _ _)]

theorem takeWhile_word_self {l : List Char} (h : ∀ c ∈ l, isspace c = false) :
    l.takeWhile (fun c => !isspace c) = l := by
  rw [List.takeWhile_eq_self_iff]
  intro c hc
  simp [h c hc]

theorem dropWhile_word_nil {l : List Char} (h : ∀ c ∈ l, isspace c = false) :
    l.dropWhile (fun c => !isspace c) = [] := by
  rw [List.dropWhile_eq_nil_iff]
  intro c hc
  simp [h c hc]

theorem extractWord_word {l : List Char} (h : ∀ c ∈ l, isspace c = false) :
    extractWord l = (l, []) := by
  simp only [extractWord, dropWhile_isspace_self h, takeWhile_word_self h, dropWhile_word_nil h]

theorem extractWord_append_space {m : List Char} (a : List Char) (hne : m ≠ [])
    (hm : ∀ c ∈ m, isspace c = false) :
    extractWord (m ++ ' ' :: a) = (m, ' ' :: a) := by
  have hd : (m ++ ' ' :: a).dropWhile isspace = m ++ ' ' :: a := by
    cases m with
    | nil => exact absurd rfl hne
    | cons x xs => simp [List.dropWhile, hm x (List.mem_cons_self _ _)]
  have hp : ∀ c ∈ m, (fun c => !isspace c) c = true := fun c hc => by simp [hm c hc]
  have hsp : isspace ' ' = true := rfl
  simp only [extractWord, hd, List.takeWhile_append_of_pos hp, List.dropWhile_append_of_pos hp]
  simp [List.takeWhile, List.dropWhile, hsp]

theorem extractWord_space_word {a : List Char} (ha : ∀ c ∈ a, isspace c = false) :
    extractWord (' ' :: a) = (a, []) := by
  have hsp : isspace ' ' = true := rfl
  have h : (' ' :: a).dropWhile isspace = a := by
    simp [List.dropWhile, hsp, dropWhile_isspace_self ha]
  simp only [extractWord, h, takeWhile_word_self ha, dropWhile_word_nil ha]

/-- The two words read from a line that is a single word. -/
theorem readOpParam_word {m : String} (hm : ∀ c ∈ m.data, isspace c = false) :
    readOpParam m = (m, "") := by
  simp only [readOpParam, extractWord_word hm]
  rfl

/-- The two words read from `m ++ " " ++ a` are `m` and `a`. -/
theorem readOpParam_word_arg {m a : String} (hne : m ≠ "")
    (hm : ∀ c ∈ m.data, isspace c = false) (ha : ∀ c ∈ a.data, isspace c = false) :
    readOpParam (m ++ " " ++ a) = (m, a) := by
  have hne' : m.data ≠ [] := fun h => hne (String.ext h)
  have hd : (m ++ " " ++ a).data = m.data ++ ' ' :: a.data := by
    simp [String.data_append]
  simp only [readOpParam, hd, extractWord_append_space a.data hne' hm, extractWord_space_word ha]

theorem find_none {l : List Char} {x : Char} (h : x ∉ l) : find l x = none := by
  induction l with
  | nil => rfl
  | cons y ys ih =>
    have hy : y ≠ x := fun e => h (e ▸ List.mem_cons_self _ _)
    simp [find, hy, ih (fun hm => h (List.mem_cons_of_mem _ hm))]

theorem find_append {l : List Char} {x : Char} (r : List Char) (h : x ∉ l) :
    find (l ++ x :: r) x = some l.length := by
  induction l with
  | nil => simp [find]
  | cons y ys ih =>
    have hy : y ≠ x := fun e => h (e ▸ List.mem_cons_self _ _)
    simp [find, hy, ih (fun hm => h (List.mem_cons_of_mem _ hm))]

theorem trim_copy_word {l : List Char} (h : ∀ c ∈ l, isspace c = false) :
    trim_copy l = ⟨l⟩ := by
  have hr : ∀ c ∈ l.reverse, isspace c = false := fun c hc => h c (List.mem_reverse.1 hc)
  simp only [trim_copy, dropWhile_isspace_self h, dropWhile_isspace_self hr, List.reverse_reverse]

theorem drop_after (l : List Char) (x : Char) (r : List Char) :
    (l ++ x :: r).drop (l.length + 1) = r := by
  induction l with
  | nil => rfl
  | cons y ys ih => simp

/-- A line without the separator is one piece. -/
theorem split_single {sep : Char} {s : String} (h : sep ∉ s.data) : split s sep = [s] := by
  simp only [split, find_none h]

/-- A line is cut at its first separator into the text before it and the text
after it. -/
theorem split_cut {sep : Char} {s : String} {l r : List Char} (hs : s.data = l ++ sep :: r)
    (h : sep ∉ l) : split s sep = [⟨l⟩, ⟨r⟩] := by
  simp only [split, hs, find_append r h, List.take_left, drop_after]

theorem space_not_mem {l : List Char} (h : ∀ c ∈ l, isspace c = false) : ' ' ∉ l :=
  fun hm => by
    have hs := h ' ' hm
    have ht : isspace ' ' = true := rfl
    rw [ht] at hs
    exact Bool.noConfusion hs

/-- The constructor on a line that is a bare mnemonic. -/
theorem ctor_word {m : String} (take ret : Int) (isPure : Bool)
    (hm : ∀ c ∈ m.data, isspace c = false) (hs : ';' ∉ m.data) :
    GenOpcode.ctor m take ret isPure = .ok ⟨m, "", "", take, ret, isPure⟩ := by
  simp only [GenOpcode.ctor, split_single hs, List.length,
    find_none (space_not_mem hm), substrTo, trim_copy_word hm]
  simp

/-- The mnemonic and the argument the constructor reads from `m ++ " " ++ a`. -/
theorem opcode_arg_of_word_arg {m a : List Char}
    (hm : ∀ c ∈ m, isspace c = false) (ha : ∀ c ∈ a, isspace c = false) :
    find (m ++ ' ' :: a) ' ' = some m.length ∧
    trim_copy ((m ++ ' ' :: a).take m.length) = ⟨m⟩ ∧
    trim_copy ((m ++ ' ' :: a).drop (m.length + 1)) = ⟨a⟩ :=
  ⟨find_append a (space_not_mem hm), by rw [List.take_left, trim_copy_word hm],
    by rw [drop_after, trim_copy_word ha]⟩

/-- The constructor on a line `m ++ " " ++ a` without comment. -/
theorem ctor_word_arg {m a : String} (take ret : Int) (isPure : Bool)
    (hm : ∀ c ∈ m.data, isspace c = false) (hs : ';' ∉ m.data)
    (ha : ∀ c ∈ a.data, isspace c = false) (has : ';' ∉ a.data) :
    GenOpcode.ctor (m ++ " " ++ a) take ret isPure = .ok ⟨m, a, "", take, ret, isPure⟩ := by
  have hd : (m ++ " " ++ a).data = m.data ++ ' ' :: a.data := by
    simp [String.data_append]
  have hsemi : ';' ∉ (m ++ " " ++ a).data := by
    rw [hd]
    simp only [List.mem_append, List.mem_cons, not_or]
    exact ⟨hs, by decide, has⟩
  obtain ⟨h₁, h₂, h₃⟩ := opcode_arg_of_word_arg hm ha
  simp only [GenOpcode.ctor, split_single hsemi, List.length, hd, h₁, substrTo, h₂, h₃]
  simp

/-- The constructor on a line `m ++ " " ++ a ++ ";" ++ c`. -/
theorem ctor_word_arg_comment {m a c : String} (take ret : Int) (isPure : Bool)
    (hm : ∀ x ∈ m.data, isspace x = false) (hs : ';' ∉ m.data)
    (ha : ∀ x ∈ a.data, isspace x = false) (has : ';' ∉ a.data) :
    GenOpcode.ctor (m ++ " " ++ a ++ ";" ++ c) take ret isPure =
      .ok ⟨m, a, ";" ++ c, take, ret, isPure⟩ := by
  have hd : (m ++ " " ++ a ++ ";" ++ c).data = (m.data ++ ' ' :: a.data) ++ ';' :: c.data := by
    simp [String.data_append]
  have hsemi : ';' ∉ m.data ++ ' ' :: a.data := by
    simp only [List.mem_append, List.mem_cons, not_or]
    exact ⟨hs, by decide, has⟩
  obtain ⟨h₁, h₂, h₃⟩ := opcode_arg_of_word_arg hm ha
  simp only [GenOpcode.ctor, split_cut hd hsemi, List.length, h₁, substrTo, h₂, h₃]
  simp

/-! ## Lemmas on decimal numerals -/

theorem toDigitsCore_append (b : Nat) :
    ∀ (fuel n : Nat) (ds : List Char),
      Nat.toDigitsCore b fuel n ds = Nat.toDigitsCore b fuel n [] ++ ds := by
  intro fuel
  induction fuel with
  | zero => intro n ds; simp [Nat.toDigitsCore]
  | succ f ih =>
    intro n ds
    simp only [Nat.toDigitsCore]
    split
    · simp
    · rw [ih (n / b) (Nat.digitChar (n % b) :: ds), ih (n / b) [Nat.digitChar (n % b)]]
      simp

theorem digitChar_spec (k : Nat) (hk : k < 10) :
    Nat.digitChar k ∈ "0123456789".data ∧ (Nat.digitChar k).toNat - '0'.toNat = k := by
  interval_cases k <;> exact ⟨by decide, rfl⟩

theorem toDigitsCore_spec :
    ∀ (fuel n : Nat), n < fuel →
      Nat.toDigitsCore 10 fuel n [] ≠ [] ∧
      (∀ c ∈ Nat.toDigitsCore 10 fuel n [], c ∈ "0123456789".data) ∧
      decimalValue (Nat.toDigitsCore 10 fuel n []) = n := by
  intro fuel
  induction fuel with
  | zero => intro n h; omega
  | succ f ih =>
    intro n hn
    have hd := digitChar_spec (n % 10) (Nat.mod_lt _ (by decide))
    simp only [Nat.toDigitsCore]
    split
    · rename_i h0
      refine ⟨by simp, ?_, ?_⟩
      · intro c hc
        rw [List.mem_singleton] at hc
        exact hc ▸ hd.1
      · simp only [decimalValue, List.foldl, hd.2]
        omega
    · rename_i h0
      have hlt : n / 10 < f := by omega
      obtain ⟨h₁, h₂, h₃⟩ := ih (n / 10) hlt
      rw [toDigitsCore_append]
      refine ⟨by simp [h₁], ?_, ?_⟩
      · intro c hc
        rcases List.mem_append.1 hc with hc | hc
        · exact h₂ c hc
        · rw [List.mem_singleton] at hc
          exact hc ▸ hd.1
      · have h₃' : List.foldl (fun acc c => 10 * acc + (c.toNat - '0'.toNat)) 0
            (Nat.toDigitsCore 10 f (n / 10) []) = n / 10 := h₃
        simp only [decimalValue, List.foldl_append, List.foldl, h₃', hd.2]
        omega

theorem repr_data (n : Nat) : (toString n).data = Nat.toDigits 10 n := rfl

theorem repr_spec (n : Nat) :
    (toString n).data ≠ [] ∧ (∀ c ∈ (toString n).data, c ∈ "0123456789".data) ∧
      decimalValue (toString n).data = n := by
  rw [repr_data]
  exact toDigitsCore_spec (n + 1) n (Nat.lt_succ_self n)

theorem digit_props : ∀ c ∈ "0123456789".data,
    isspace c = false ∧ c ≠ ';' ∧ c.isDigit = true ∧ (c == '-') = false ∧ (c == '+') = false := by
  decide

theorem repr_no_space (n : Nat) : ∀ c ∈ (toString n).data, isspace c = false :=
  fun c hc => (digit_props c ((repr_spec n).2.1 c hc)).1

theorem repr_no_semicolon (n : Nat) : ';' ∉ (toString n).data :=
  fun hc => (digit_props ';' ((repr_spec n).2.1 ';' hc)).2.1 rfl

theorem parseUnsigned_repr (n : Nat) (h : n ≤ 4294967295) :
    parseUnsigned (toString n).data = some n := by
  obtain ⟨h₁, h₂, h₃⟩ := repr_spec n
  have hall : (toString n).data.all Char.isDigit = true := by
    rw [List.all_eq_true]
    exact fun c hc => (digit_props c (h₂ c hc)).2.2.1
  simp only [parseUnsigned, ne_eq, h₁, not_false_eq_true, hall, and_self, if_true, h₃, h]

/-- The conversion of the decimal numeral of `n`: it gives `n` exactly when `n`
fits a 32-bit `int`. -/
theorem lexical_cast_int_repr (n : Nat) :
    lexical_cast_int (toString n) =
      if n ≤ 2147483647 then .ok (n : Int) else .error .bad_lexical_cast := by
  obtain ⟨h₁, h₂, h₃⟩ := repr_spec n
  unfold lexical_cast_int
  match hdat : (toString n).data with
  | [] => exact absurd hdat h₁
  | c :: cs =>
    have hc := digit_props c (h₂ c (hdat ▸ List.mem_cons_self _ _))
    simp only [hc.2.2.2.1, hc.2.2.2.2, Bool.or_self, Bool.false_eq_true, if_false]
    by_cases hn : n ≤ 4294967295
    · rw [← hdat, parseUnsigned_repr n hn]
    · have hv : ¬ decimalValue (toString n).data ≤ 4294967295 := by rw [h₃]; exact hn
      have hp : parseUnsigned (c :: cs) = none := by
        rw [← hdat]
        simp only [parseUnsigned, hv, if_false, ite_self]
      rw [hp]
      have : ¬ n ≤ 2147483647 := by omega
      simp [this]

/-! ## Lemmas on `gen` -/

theorem dictSet_head {cmd : String} (h : dictSet cmd = true) : cmd.data.head? = some 'D' := by
  simp only [dictSet, List.any_cons, List.any_nil, Bool.or_false, Bool.or_eq_true,
    decide_eq_true_eq] at h
  rcases h with (h | h | h) | (h | h | h) | (h | h | h) <;> subst h <;> rfl

theorem dictReplaceOrAdd_head {cmd : String} (h : dictReplaceOrAdd cmd = true) :
    cmd.data.head? = some 'D' := by
  simp only [dictReplaceOrAdd, List.any_cons, List.any_nil, Bool.or_false, Bool.or_eq_true,
    decide_eq_true_eq] at h
  rcases h with
    ((h | h | h) | (h | h | h)) | ((h | h | h) | (h | h | h)) | ((h | h | h) | (h | h | h)) <;>
    subst h <;> rfl

theorem dictSet_false {cmd : String} (h : cmd.data.head? ≠ some 'D') : dictSet cmd = false := by
  cases hd : dictSet cmd with
  | false => rfl
  | true => exact absurd (dictSet_head hd) h

theorem dictReplaceOrAdd_false {cmd : String} (h : cmd.data.head? ≠ some 'D') :
    dictReplaceOrAdd cmd = false := by
  cases hd : dictReplaceOrAdd cmd with
  | false => rfl
  | true => exact absurd (dictReplaceOrAdd_head hd) h

/-- A line whose first word is a key of the table is resolved by the table. -/
theorem gen_of_table (pureDflt : Bool) {cmd : String} {p : OpcodeParams}
    (h : opcodesAt (readOpParam cmd).1 = some p) :
    gen pureDflt cmd = GenOpcode.ctor cmd p.take p.ret p.isPure := by
  simp only [gen, h]

set_option maxRecDepth 100000 in
theorem opcodes_keys : ∀ e ∈ opcodes,
    e.1 ≠ "" ∧ (∀ c ∈ e.1.data, isspace c = false) ∧ ';' ∉ e.1.data := by
  decide

set_option maxRecDepth 100000 in
theorem opcodes_lookup : ∀ e ∈ opcodes, opcodesAt e.1 = some e.2 := by
  decide

/-- A line that no table entry and no dictionary rule resolves: what is left of
`gen` is the chain of the family rules. -/
theorem gen_of_family (pureDflt : Bool) {cmd m a : String} (hrp : readOpParam cmd = (m, a))
    (htab : opcodesAt m = none) (hD : cmd.data.head? ≠ some 'D') :
    gen pureDflt cmd =
      if m = "TUPLE" then
        match lexical_cast_int a with
        | .error e => .error e
        | .ok ret => GenOpcode.ctor cmd ret 1 pureDflt
      else if m = "UNTUPLE" then
        match lexical_cast_int a with
        | .error e => .error e
        | .ok ret => GenOpcode.ctor cmd 1 ret pureDflt
      else if m = "LSHIFT" ∨ m = "RSHIFT" then
        if a = "" then GenOpcode.ctor cmd 2 1 pureDflt else GenOpcode.ctor cmd 1 1 pureDflt
      else if m = "MULRSHIFT" then
        if a = "" then GenOpcode.ctor cmd 3 1 pureDflt else GenOpcode.ctor cmd 2 1 pureDflt
      else .error .UnimplementedFeatureError := by
  simp only [gen, hrp, htab, dictSet_false hD, dictReplaceOrAdd_false hD, Bool.false_eq_true,
    if_false, decide_eq_true_eq, Bool.or_eq_true]

/-- A family mnemonic followed by an argument: the words `gen` reads, and the node
the constructor builds. -/
theorem gen_word_arg (pureDflt : Bool) {m a : String} (hne : m ≠ "")
    (hm : ∀ c ∈ m.data, isspace c = false) (hs : ';' ∉ m.data)
    (htab : opcodesAt m = none) (hD : m.data.head? ≠ some 'D')
    (ha : ∀ c ∈ a.data, isspace c = false) (has : ';' ∉ a.data) :
    gen pureDflt (m ++ " " ++ a) =
      if m = "TUPLE" then
        match lexical_cast_int a with
        | .error e => .error e
        | .ok ret => .ok ⟨m, a, "", ret, 1, pureDflt⟩
      else if m = "UNTUPLE" then
        match lexical_cast_int a with
        | .error e => .error e
        | .ok ret => .ok ⟨m, a, "", 1, ret, pureDflt⟩
      else if m = "LSHIFT" ∨ m = "RSHIFT" then
        if a = "" then .ok ⟨m, a, "", 2, 1, pureDflt⟩ else .ok ⟨m, a, "", 1, 1, pureDflt⟩
      else if m = "MULRSHIFT" then
        if a = "" then .ok ⟨m, a, "", 3, 1, pureDflt⟩ else .ok ⟨m, a, "", 2, 1, pureDflt⟩
      else .error .UnimplementedFeatureError := by
  have hne' : m.data ≠ [] := fun h => hne (String.ext h)
  have hD' : (m ++ " " ++ a).data.head? ≠ some 'D' := by
    have : (m ++ " " ++ a).data = m.data ++ ' ' :: a.data := by simp [String.data_append]
    rw [this]
    cases hdat : m.data with
    | nil => exact absurd hdat hne'
    | cons x xs =>
      rw [hdat] at hD
      simpa using hD
  rw [gen_of_family pureDflt (readOpParam_word_arg hne hm ha) htab hD']
  simp only [ctor_word_arg _ _ _ hm hs ha has]

set_option maxRecDepth 100000 in
theorem opcodes_pure : ∀ e ∈ opcodes,
    (e.2.isPure = true ↔
      e.1 ∈ ["BLOCKLT", "FALSE", "GETPARAM", "LTIME", "MYADDR", "NEWC", "NEWDICT", "NIL",
        "NOW", "NULL", "PUSHINT", "PUSHPOW2DEC", "PUSHSLICE", "RANDSEED", "TRUE"]) ∧
    (e.2.isPure = true → e.2.take = 0 ∧ e.2.ret = 1) := by
  decide

set_option maxRecDepth 100000 in
theorem pure_keys :
    ∀ m ∈ ["BLOCKLT", "FALSE", "GETPARAM", "LTIME", "MYADDR", "NEWC", "NEWDICT", "NIL",
        "NOW", "NULL", "PUSHINT", "PUSHPOW2DEC", "PUSHSLICE", "RANDSEED", "TRUE"],
      opcodesAt m = some ⟨0, 1, true⟩ := by
  decide

/-! ## Lemmas on the traversal -/

theorem visited_append (a b : List Call) : visited (a ++ b) = visited a ++ visited b := by
  induction a with
  | nil => rfl
  | cons c cs ih =>
    cases c with
    | visit n => simp [visited, ih]
    | endVisit n => simp [visited, ih]

theorem recording_visit {σ : Type} (v : TvmAstVisitor σ) (n : TvmAstNode) (s : σ)
    (log : List Call) :
    (recording v).visit n (s, log) = ((v.visit n s).1, ((v.visit n s).2, log ++ [Call.visit n])) :=
  rfl

theorem recording_endVisit {σ : Type} (v : TvmAstVisitor σ) (b : CodeBlock) (s : σ)
    (log : List Call) :
    (recording v).endVisit b (s, log) = (v.endVisit b s, log ++ [Call.endVisit b]) :=
  rfl

theorem Call.Within.mono {k k' : Nat} (h : k ≤ k') : ∀ c : Call, c.Within k → c.Within k'
  | .visit _, hc => Nat.le_trans hc h
  | .endVisit _, hc => Nat.le_trans hc h

theorem TraceSpec.leaf {σ : Type} (v : TvmAstVisitor σ) (n : TvmAstNode)
    (hacc : ∀ st, TvmAstNode.accept (recording v) n st = some ((recording v).visit n st).2)
    (hpre : n.preorder = [n]) :
    TraceSpec v TvmAstNode.accept TvmAstNode.preorder sizeOf n := by
  intro s
  refine ⟨(v.visit n s).2, [Call.visit n], ?_, ?_, ?_⟩
  · intro log
    rw [hacc]
    rfl
  · intro _
    rw [hpre]
    rfl
  · intro c hc
    rw [List.mem_singleton] at hc
    subst hc
    exact Nat.le_refl _

/-- A node that descends, when its pre-visit callback allows it, into what `acc`
traverses: the trace is the pre-visit invocation followed by the trace of
`acc`. -/
theorem TraceSpec.descend {σ α : Type} (v : TvmAstVisitor σ) (n : TvmAstNode)
    (acc : TvmAstVisitor (σ × List Call) → α → σ × List Call → Option (σ × List Call))
    (pre : α → List TvmAstNode) (size : α → Nat) (x : α) (hx : TraceSpec v acc pre size x)
    (hsize : size x ≤ sizeOf n)
    (accN : TvmAstVisitor (σ × List Call) → σ × List Call → Option (σ × List Call))
    (hacc : ∀ st, accN (recording v) st =
      if ((recording v).visit n st).1 = true then acc (recording v) x ((recording v).visit n st).2
      else some ((recording v).visit n st).2) :
    ∀ s : σ, ∃ (s' : σ) (tr : List Call),
      (∀ log, accN (recording v) (s, log) = some (s', log ++ tr)) ∧
      ((∀ m t, (v.visit m t).1 = true) → visited tr = n :: pre x) ∧
      (∀ c ∈ tr, Call.Within (sizeOf n) c) := by
  intro s
  cases hb : (v.visit n s).1 with
  | false =>
    refine ⟨(v.visit n s).2, [Call.visit n], fun log => ?_, fun hv => ?_, fun c hc => ?_⟩
    · rw [hacc, recording_visit]
      simp [hb]
    · exact absurd (hv n s) (by simp [hb])
    · rw [List.mem_singleton] at hc
      subst hc
      exact Nat.le_refl _
  | true =>
    obtain ⟨s', tr, h₁, h₂, h₃⟩ := hx (v.visit n s).2
    refine ⟨s', Call.visit n :: tr, fun log => ?_, fun hv => ?_, fun c hc => ?_⟩
    · rw [hacc, recording_visit]
      simp [hb, h₁]
    · simp [visited, h₂ hv]
    · rcases List.mem_cons.1 hc with hc | hc
      · subst hc
        exact Nat.le_refl _
      · exact Call.Within.mono hsize c (h₃ c hc)

/-- Two traversals in sequence. -/
theorem TraceSpec.seq {σ α β : Type} (v : TvmAstVisitor σ)
    (acc₁ : TvmAstVisitor (σ × List Call) → α → σ × List Call → Option (σ × List Call))
    (pre₁ : α → List TvmAstNode) (size₁ : α → Nat) (x : α)
    (acc₂ : TvmAstVisitor (σ × List Call) → β → σ × List Call → Option (σ × List Call))
    (pre₂ : β → List TvmAstNode) (size₂ : β → Nat) (y : β)
    (hx : TraceSpec v acc₁ pre₁ size₁ x) (hy : TraceSpec v acc₂ pre₂ size₂ y) :
    TraceSpec v
      (fun w (p : α × β) st =>
        match acc₁ w p.1 st with
        | some st' => acc₂ w p.2 st'
        | none => none)
      (fun p => pre₁ p.1 ++ pre₂ p.2) (fun p => size₁ p.1 + size₂ p.2) (x, y) := by
  intro s
  obtain ⟨s₁, tr₁, h₁, g₁, k₁⟩ := hx s
  obtain ⟨s₂, tr₂, h₂, g₂, k₂⟩ := hy s₁
  refine ⟨s₂, tr₁ ++ tr₂, fun log => ?_, fun hv => ?_, fun c hc => ?_⟩
  · simp only [h₁, h₂, List.append_assoc]
  · simp only [visited_append, g₁ hv, g₂ hv]
  · rcases List.mem_append.1 hc with hc | hc
    · exact Call.Within.mono (Nat.le_add_right _ _) c (k₁ c hc)
    · exact Call.Within.mono (Nat.le_add_left _ _) c (k₂ c hc)

/-- The same traversal written in another way. -/
theorem TraceSpec.congr {σ α β : Type} (v : TvmAstVisitor σ)
    (acc : TvmAstVisitor (σ × List Call) → α → σ × List Call → Option (σ × List Call))
    (pre : α → List TvmAstNode) (size : α → Nat) (x : α)
    (acc' : TvmAstVisitor (σ × List Call) → β → σ × List Call → Option (σ × List Call))
    (pre' : β → List TvmAstNode) (size' : β → Nat) (y : β)
    (hacc : ∀ st, acc' (recording v) y st = acc (recording v) x st) (hpre : pre' y = pre x)
    (hsize : size x ≤ size' y)
    (hx : TraceSpec v acc pre size x) : TraceSpec v acc' pre' size' y := by
  intro s
  obtain ⟨s', tr, h₁, h₂, h₃⟩ := hx s
  exact ⟨s', tr, fun log => by rw [hacc, h₁], fun hv => by rw [hpre, h₂ hv],
    fun c hc => Call.Within.mono hsize c (h₃ c hc)⟩

mutual
theorem node_traceSpec {σ : Type} (v : TvmAstVisitor σ) :
    ∀ n : TvmAstNode, n.wellFormed = true →
      TraceSpec v TvmAstNode.accept TvmAstNode.preorder sizeOf n
  | .loc _, _ => TraceSpec.leaf v _ (fun _ => rfl) rfl
  | .stack _, _ => TraceSpec.leaf v _ (fun _ => rfl) rfl
  | .glob _, _ => TraceSpec.leaf v _ (fun _ => rfl) rfl
  | .opaqueBlock n, h => opaqueBlock_traceSpec v n h
  | .asymGen _, _ => TraceSpec.leaf v _ (fun _ => rfl) rfl
  | .hardCode _, _ => TraceSpec.leaf v _ (fun _ => rfl) rfl
  | .genOpcode _, _ => TraceSpec.leaf v _ (fun _ => rfl) rfl
  | .conFlowInst _, _ => TraceSpec.leaf v _ (fun _ => rfl) rfl
  | .pushCellOrSlice n, _ => pushCellOrSlice_traceSpec v n
  | .codeBlock n, h => codeBlock_traceSpec v n h
  | .tvmIfElse n, h => tvmIfElse_traceSpec v n h
  | .repeatOrUntil n, h => repeatOrUntil_traceSpec v n h
  | .whileLoop n, h => whileLoop_traceSpec v n h
  | .function n, h => function_traceSpec v n h
  | .contract n, h => contract_traceSpec v n h
theorem opaqueBlock_traceSpec {σ : Type} (v : TvmAstVisitor σ) :
    ∀ n : Opaque, n.wellFormed = true →
      TraceSpec v Opaque.accept Opaque.preorder (fun x => sizeOf (TvmAstNode.opaqueBlock x)) n
  | .mk block take ret, h =>
    TraceSpec.descend v (.opaqueBlock (.mk block take ret)) CodeBlock.accept CodeBlock.preorder
      (fun x => sizeOf (TvmAstNode.codeBlock x)) block (codeBlock_traceSpec v block h)
      (by simp; omega)
      (fun w st => Opaque.accept w (.mk block take ret) st) (fun _ => rfl)
theorem pushCellOrSlice_traceSpec {σ : Type} (v : TvmAstVisitor σ) :
    ∀ n : PushCellOrSlice,
      TraceSpec v PushCellOrSlice.accept PushCellOrSlice.preorder
        (fun x => sizeOf (TvmAstNode.pushCellOrSlice x)) n
  | .mk type blob child =>
    TraceSpec.descend v (.pushCellOrSlice (.mk type blob child)) acceptChild preorderChild
      sizeOf child (child_traceSpec v child) (by simp; omega)
      (fun w st => PushCellOrSlice.accept w (.mk type blob child) st) (fun _ => rfl)
theorem child_traceSpec {σ : Type} (v : TvmAstVisitor σ) :
    ∀ o : Option PushCellOrSlice, TraceSpec v acceptChild preorderChild sizeOf o
  | some child =>
    TraceSpec.congr v PushCellOrSlice.accept PushCellOrSlice.preorder
      (fun x => sizeOf (TvmAstNode.pushCellOrSlice x)) child acceptChild
      preorderChild sizeOf (some child) (fun _ => rfl) rfl (by simp)
      (pushCellOrSlice_traceSpec v child)
  | none => fun s =>
    ⟨s, [], fun log => by simp [acceptChild], fun _ => rfl, fun _ hc => by simp at hc⟩
theorem codeBlock_traceSpec {σ : Type} (v : TvmAstVisitor σ) :
    ∀ n : CodeBlock, n.wellFormed = true →
      TraceSpec v CodeBlock.accept CodeBlock.preorder (fun x => sizeOf (TvmAstNode.codeBlock x)) n
  | .mk type instructions, h => by
    intro s
    cases hb : (v.visit (.codeBlock (.mk type instructions)) s).1 with
    | false =>
      refine ⟨v.endVisit (.mk type instructions) (v.visit (.codeBlock (.mk type instructions)) s).2,
        [Call.visit (.codeBlock (.mk type instructions)), Call.endVisit (.mk type instructions)],
        fun log => ?_, fun hv => ?_, fun c hc => ?_⟩
      · simp [CodeBlock.accept, recording_visit, recording_endVisit, hb]
      · exact absurd (hv (.codeBlock (.mk type instructions)) s) (by simp [hb])
      · simp only [List.mem_cons, List.mem_singleton, List.not_mem_nil, or_false] at hc
        rcases hc with hc | hc <;> subst hc <;> exact Nat.le_refl _
    | true =>
      obtain ⟨s', tr, h₁, h₂, h₃⟩ := instructions_traceSpec v instructions h
        (v.visit (.codeBlock (.mk type instructions)) s).2
      refine ⟨v.endVisit (.mk type instructions) s',
        Call.visit (.codeBlock (.mk type instructions)) :: tr ++
          [Call.endVisit (.mk type instructions)],
        fun log => ?_, fun hv => ?_, fun c hc => ?_⟩
      · simp [CodeBlock.accept, recording_visit, recording_endVisit, hb, h₁]
      · simp [visited, visited_append, h₂ hv, CodeBlock.preorder]
      · simp only [List.cons_append, List.mem_cons, List.mem_append, List.mem_singleton,
          List.not_mem_nil, or_false] at hc
        rcases hc with hc | hc | hc
        · subst hc
          exact Nat.le_refl _
        · exact Call.Within.mono (by simp; omega) c (h₃ c hc)
        · subst hc
          exact Nat.le_refl _
theorem instructions_traceSpec {σ : Type} (v : TvmAstVisitor σ) :
    ∀ l : List TvmAstNode, wellFormedInstructions l = true →
      TraceSpec v acceptInstructions preorderInstructions sizeOf l
  | [], _ => fun s =>
    ⟨s, [], fun log => by simp [acceptInstructions], fun _ => rfl, fun _ hc => by simp at hc⟩
  | node :: rest, h => by
    have h' : node.wellFormed = true ∧ wellFormedInstructions rest = true := by
      simpa [wellFormedInstructions] using h
    exact TraceSpec.congr v _ _ _ (node, rest) _ _ _ (node :: rest)
      (fun st => by
        simp only [acceptInstructions]
        generalize TvmAstNode.accept (recording v) node st = o
        cases o <;> rfl)
      (by simp only [preorderInstructions])
      (by simp)
      (TraceSpec.seq v TvmAstNode.accept TvmAstNode.preorder sizeOf node acceptInstructions
        preorderInstructions sizeOf rest (node_traceSpec v node h'.1)
        (instructions_traceSpec v rest h'.2))
theorem tvmIfElse_traceSpec {σ : Type} (v : TvmAstVisitor σ) :
    ∀ n : TvmIfElse, n.wellFormed = true →
      TraceSpec v TvmIfElse.accept TvmIfElse.preorder (fun x => sizeOf (TvmAstNode.tvmIfElse x)) n
  | .mk type trueBody falseBody, h => by
    have h' : wellFormedTrueBody trueBody = true ∧ wellFormedFalseBody falseBody = true := by
      simpa [TvmIfElse.wellFormed] using h
    exact TraceSpec.descend v (.tvmIfElse (.mk type trueBody falseBody)) _ _ _
      (trueBody, falseBody)
      (TraceSpec.seq v acceptTrueBody preorderBody sizeOf trueBody acceptFalseBody preorderBody
        sizeOf falseBody (trueBody_traceSpec v trueBody h'.1)
        (falseBody_traceSpec v falseBody h'.2))
      (by simp; omega)
      (fun w st => TvmIfElse.accept w (.mk type trueBody falseBody) st)
      (fun st => by
        simp only [TvmIfElse.accept]
        generalize acceptTrueBody (recording v) trueBody _ = o
        cases o <;> rfl)
theorem trueBody_traceSpec {σ : Type} (v : TvmAstVisitor σ) :
    ∀ o : Option CodeBlock, wellFormedTrueBody o = true →
      TraceSpec v acceptTrueBody preorderBody sizeOf o
  | some body, h =>
    TraceSpec.congr v CodeBlock.accept CodeBlock.preorder
      (fun x => sizeOf (TvmAstNode.codeBlock x)) body acceptTrueBody preorderBody sizeOf
      (some body) (fun _ => rfl) rfl (by simp) (codeBlock_traceSpec v body h)
  | none, h => by simp [wellFormedTrueBody] at h
theorem falseBody_traceSpec {σ : Type} (v : TvmAstVisitor σ) :
    ∀ o : Option CodeBlock, wellFormedFalseBody o = true →
      TraceSpec v acceptFalseBody preorderBody sizeOf o
  | some body, h =>
    TraceSpec.congr v CodeBlock.accept CodeBlock.preorder
      (fun x => sizeOf (TvmAstNode.codeBlock x)) body acceptFalseBody preorderBody sizeOf
      (some body) (fun _ => rfl) rfl (by simp) (codeBlock_traceSpec v body h)
  | none, _ => fun s =>
    ⟨s, [], fun log => by simp [acceptFalseBody], fun _ => rfl, fun _ hc => by simp at hc⟩
theorem repeatOrUntil_traceSpec {σ : Type} (v : TvmAstVisitor σ) :
    ∀ n : RepeatOrUntil, n.wellFormed = true →
      TraceSpec v RepeatOrUntil.accept RepeatOrUntil.preorder
        (fun x => sizeOf (TvmAstNode.repeatOrUntil x)) n
  | .mk type body, h =>
    TraceSpec.descend v (.repeatOrUntil (.mk type body)) CodeBlock.accept CodeBlock.preorder
      (fun x => sizeOf (TvmAstNode.codeBlock x)) body (codeBlock_traceSpec v body h)
      (by simp)
      (fun w st => RepeatOrUntil.accept w (.mk type body) st) (fun _ => rfl)
theorem whileLoop_traceSpec {σ : Type} (v : TvmAstVisitor σ) :
    ∀ n : While, n.wellFormed = true →
      TraceSpec v While.accept While.preorder (fun x => sizeOf (TvmAstNode.whileLoop x)) n
  | .mk condition body, h => by
    have h' : condition.wellFormed = true ∧ body.wellFormed = true := by
      simpa [While.wellFormed] using h
    exact TraceSpec.descend v (.whileLoop (.mk condition body)) _ _ _ (condition, body)
      (TraceSpec.seq v CodeBlock.accept CodeBlock.preorder
        (fun x => sizeOf (TvmAstNode.codeBlock x)) condition CodeBlock.accept
        CodeBlock.preorder (fun x => sizeOf (TvmAstNode.codeBlock x)) body
        (codeBlock_traceSpec v condition h'.1) (codeBlock_traceSpec v body h'.2))
      (by simp; omega)
      (fun w st => While.accept w (.mk condition body) st)
      (fun st => by
        simp only [While.accept]
        generalize CodeBlock.accept (recording v) condition _ = o
        cases o <;> rfl)
theorem function_traceSpec {σ : Type} (v : TvmAstVisitor σ) :
    ∀ n : Function, n.wellFormed = true →
      TraceSpec v Function.accept Function.preorder (fun x => sizeOf (TvmAstNode.function x)) n
  | .mk name block, h =>
    TraceSpec.descend v (.function (.mk name block)) CodeBlock.accept CodeBlock.preorder
      (fun x => sizeOf (TvmAstNode.codeBlock x)) block (codeBlock_traceSpec v block h)
      (by simp)
      (fun w st => Function.accept w (.mk name block) st) (fun _ => rfl)
theorem contract_traceSpec {σ : Type} (v : TvmAstVisitor σ) :
    ∀ n : Contract, n.wellFormed = true →
      TraceSpec v Contract.accept Contract.preorder (fun x => sizeOf (TvmAstNode.contract x)) n
  | .mk functions, h =>
    TraceSpec.descend v (.contract (.mk functions)) acceptFunctions preorderFunctions
      sizeOf functions (functions_traceSpec v functions h) (by simp; omega)
      (fun w st => Contract.accept w (.mk functions) st) (fun _ => rfl)
theorem functions_traceSpec {σ : Type} (v : TvmAstVisitor σ) :
    ∀ l : List Function, wellFormedFunctions l = true →
      TraceSpec v acceptFunctions preorderFunctions sizeOf l
  | [], _ => fun s =>
    ⟨s, [], fun log => by simp [acceptFunctions], fun _ => rfl, fun _ hc => by simp at hc⟩
  | node :: rest, h => by
    have h' : node.wellFormed = true ∧ wellFormedFunctions rest = true := by
      simpa [wellFormedFunctions] using h
    exact TraceSpec.congr v _ _ _ (node, rest) _ _ _ (node :: rest)
      (fun st => by
        simp only [acceptFunctions]
        generalize Function.accept (recording v) node st = o
        cases o <;> rfl)
      (by simp only [preorderFunctions])
      (by simp)
      (TraceSpec.seq v Function.accept Function.preorder
        (fun x => sizeOf (TvmAstNode.function x)) node acceptFunctions
        preorderFunctions sizeOf rest (function_traceSpec v node h'.1)
        (functions_traceSpec v rest h'.2))
end

/-! ## Lemmas on the failures and the counts of `gen` -/

/-- The constructor keeps the counts and the purity flag it is given. -/
theorem ctor_fields {cmd : String} {take ret : Int} {isPure : Bool} {g : GenOpcode}
    (h : GenOpcode.ctor cmd take ret isPure = .ok g) :
    g.m_take = take ∧ g.m_ret = ret ∧ g.m_isPure = isPure := by
  unfold GenOpcode.ctor at h
  simp only at h
  split at h
  · split at h
    · exact Except.noConfusion h
    · injection h with h
      subst h
      exact ⟨rfl, rfl, rfl⟩
  · exact Except.noConfusion h

/-- The constructor returns a node on every line: `split` gives one piece or
two, and the assertion on the number of pieces holds. -/
theorem ctor_total (cmd : String) (take ret : Int) (isPure : Bool) :
    ∃ g, GenOpcode.ctor cmd take ret isPure = .ok g := by
  unfold GenOpcode.ctor split
  cases find cmd.data ';' <;> exact ⟨_, rfl⟩

/-- A line that is one of the dictionary `SET` mnemonics is its own first word. -/
theorem dictSet_op {cmd : String} (h : dictSet cmd = true) : (readOpParam cmd).1 = cmd := by
  simp only [dictSet, List.any_cons, List.any_nil, Bool.or_false, Bool.or_eq_true,
    decide_eq_true_eq] at h
  rcases h with (h | h | h) | (h | h | h) | (h | h | h) <;> subst h <;> rfl

/-- A line that is one of the dictionary `REPLACE` and `ADD` mnemonics is its own
first word. -/
theorem dictReplaceOrAdd_op {cmd : String} (h : dictReplaceOrAdd cmd = true) :
    (readOpParam cmd).1 = cmd := by
  simp only [dictReplaceOrAdd, List.any_cons, List.any_nil, Bool.or_false, Bool.or_eq_true,
    decide_eq_true_eq] at h
  rcases h with
    ((h | h | h) | (h | h | h)) | ((h | h | h) | (h | h | h)) | ((h | h | h) | (h | h | h)) <;>
    subst h <;> rfl

/-- No dictionary rule matches a line whose first word is `TUPLE` or `UNTUPLE`. -/
theorem dict_rules_of_tuple {cmd : String}
    (hop : (readOpParam cmd).1 = "TUPLE" ∨ (readOpParam cmd).1 = "UNTUPLE") :
    dictSet cmd = false ∧ dictReplaceOrAdd cmd = false := by
  constructor
  · cases hd : dictSet cmd with
    | false => rfl
    | true =>
      have h := dictSet_op hd
      rcases hop with hop | hop <;> rw [h] at hop <;> subst hop <;> exact absurd hd (by decide)
  · cases hd : dictReplaceOrAdd cmd with
    | false => rfl
    | true =>
      have h := dictReplaceOrAdd_op hd
      rcases hop with hop | hop <;> rw [h] at hop <;> subst hop <;> exact absurd hd (by decide)

theorem parseUnsigned_non_digit {ds : List Char} {c : Char} (hc : c ∈ ds)
    (hd : c.isDigit = false) : parseUnsigned ds = none := by
  have hall : ¬ (ds ≠ [] ∧ ds.all Char.isDigit = true) := by
    rintro ⟨-, h⟩
    have := List.all_eq_true.1 h c hc
    rw [hd] at this
    exact Bool.noConfusion this
  simp only [parseUnsigned, hall, if_false]

/-- The conversion rejects the empty string. -/
theorem lexical_cast_int_empty : lexical_cast_int "" = .error .bad_lexical_cast := rfl

/-- The conversion rejects a string that holds a character other than a digit
and a sign. -/
theorem lexical_cast_int_non_numeric {s : String} {c : Char} (hc : c ∈ s.data)
    (hd : c.isDigit = false) (hp : c ≠ '+') (hm : c ≠ '-') :
    lexical_cast_int s = .error .bad_lexical_cast := by
  unfold lexical_cast_int
  split
  · rfl
  · rename_i c0 cs heq
    rw [heq] at hc
    have hmem : c ∈ (if ((c0 == '-') || c0 == '+') = true then cs else c0 :: cs) := by
      rcases List.mem_cons.1 hc with h | h
      · subst h
        have h1 : (c == '-') = false := by simpa using hm
        have h2 : (c == '+') = false := by simpa using hp
        simp [h1, h2]
      · split
        · exact h
        · exact List.mem_cons_of_mem _ h
    simp only [parseUnsigned_non_digit hmem hd]

theorem lookup_mem {k : String} {v : OpcodeParams} :
    ∀ {l : List (String × OpcodeParams)}, l.lookup k = some v → (k, v) ∈ l := by
  intro l
  induction l with
  | nil => intro h; simp at h
  | cons e es ih =>
    intro h
    obtain ⟨k', v'⟩ := e
    by_cases hk : k = k'
    · subst hk
      simp [List.lookup] at h
      simp [h]
    · have : (k == k') = false := by simpa using hk
      simp only [List.lookup, this] at h
      exact List.mem_cons_of_mem _ (ih h)

theorem lexical_cast_int_error {s : String} {e : Err} (h : lexical_cast_int s = .error e) :
    e = .bad_lexical_cast := by
  unfold lexical_cast_int at h
  split at h
  · injection h with h; exact h.symm
  · simp only at h
    split at h
    · injection h with h; exact h.symm
    · split at h
      · split at h
        · exact Except.noConfusion h
        · injection h with h; exact h.symm
      · split at h
        · exact Except.noConfusion h
        · injection h with h; exact h.symm

/-- A numeral that does not start with a minus sign is not converted to a
negative number. -/
theorem lexical_cast_int_nonneg {s : String} {k : Int} (h : lexical_cast_int s = .ok k)
    (hs : s.data.head? ≠ some '-') : 0 ≤ k := by
  unfold lexical_cast_int at h
  split at h
  · exact Except.noConfusion h
  · rename_i c cs heq
    have hc : (c == '-') = false := by
      rw [heq] at hs
      simpa using hs
    simp only [hc, Bool.false_or, Bool.false_eq_true, if_false] at h
    split at h
    · exact Except.noConfusion h
    · split at h
      · injection h with h
        subst h
        exact Int.ofNat_nonneg _
      · exact Except.noConfusion h

set_option maxRecDepth 100000 in
theorem opcodes_nonneg : ∀ e ∈ opcodes, 0 ≤ e.2.take ∧ 0 ≤ e.2.ret := by
  decide

/-- The body of `gen`, with the tests written as propositions. -/
theorem gen_unfold (pureDflt : Bool) (cmd : String) :
    gen pureDflt cmd =
      match opcodesAt (readOpParam cmd).1 with
      | some params => GenOpcode.ctor cmd params.take params.ret params.isPure
      | none =>
        if dictSet cmd = true then GenOpcode.ctor cmd 4 1 pureDflt
        else if dictReplaceOrAdd cmd = true then GenOpcode.ctor cmd 4 2 pureDflt
        else if (readOpParam cmd).1 = "TUPLE" then
          match lexical_cast_int (readOpParam cmd).2 with
          | .error e => .error e
          | .ok ret => GenOpcode.ctor cmd ret 1 pureDflt
        else if (readOpParam cmd).1 = "UNTUPLE" then
          match lexical_cast_int (readOpParam cmd).2 with
          | .error e => .error e
          | .ok ret => GenOpcode.ctor cmd 1 ret pureDflt
        else if (readOpParam cmd).1 = "LSHIFT" ∨ (readOpParam cmd).1 = "RSHIFT" then
          if (readOpParam cmd).2 = "" then GenOpcode.ctor cmd 2 1 pureDflt
          else GenOpcode.ctor cmd 1 1 pureDflt
        else if (readOpParam cmd).1 = "MULRSHIFT" then
          if (readOpParam cmd).2 = "" then GenOpcode.ctor cmd 3 1 pureDflt
          else GenOpcode.ctor cmd 2 1 pureDflt
        else .error .UnimplementedFeatureError := by
  simp only [gen, decide_eq_true_eq, Bool.or_eq_true]

theorem tuple_mem_rules {op : String} (h : op = "TUPLE" ∨ op = "UNTUPLE") :
    op ∈ ["TUPLE", "UNTUPLE", "LSHIFT", "RSHIFT", "MULRSHIFT"] := by
  rcases h with h | h <;> subst h <;> simp

/-- The three outcomes of `gen`: no rule matches and `gen` fails as unimplemented;
the rule of `TUPLE` or `UNTUPLE` matches, the conversion of the argument fails
and `gen` fails with the conversion error; otherwise `gen` returns a node. -/
theorem gen_cases (pureDflt : Bool) (cmd : String) :
    (gen pureDflt cmd = .error .UnimplementedFeatureError ∧
      opcodesAt (readOpParam cmd).1 = none ∧ dictSet cmd = false ∧
      dictReplaceOrAdd cmd = false ∧
      (readOpParam cmd).1 ∉ ["TUPLE", "UNTUPLE", "LSHIFT", "RSHIFT", "MULRSHIFT"]) ∨
    (gen pureDflt cmd = .error .bad_lexical_cast ∧
      opcodesAt (readOpParam cmd).1 = none ∧ dictSet cmd = false ∧
      dictReplaceOrAdd cmd = false ∧
      ((readOpParam cmd).1 = "TUPLE" ∨ (readOpParam cmd).1 = "UNTUPLE") ∧
      lexical_cast_int (readOpParam cmd).2 = .error .bad_lexical_cast) ∨
    ((∃ g, gen pureDflt cmd = .ok g) ∧
      ¬ (opcodesAt (readOpParam cmd).1 = none ∧ dictSet cmd = false ∧
        dictReplaceOrAdd cmd = false ∧
        (readOpParam cmd).1 ∉ ["TUPLE", "UNTUPLE", "LSHIFT", "RSHIFT", "MULRSHIFT"]) ∧
      ¬ (opcodesAt (readOpParam cmd).1 = none ∧ dictSet cmd = false ∧
        dictReplaceOrAdd cmd = false ∧
        ((readOpParam cmd).1 = "TUPLE" ∨ (readOpParam cmd).1 = "UNTUPLE") ∧
        lexical_cast_int (readOpParam cmd).2 = .error .bad_lexical_cast)) := by
  rw [gen_unfold]
  cases hat : opcodesAt (readOpParam cmd).1 with
  | some params =>
    exact Or.inr (Or.inr ⟨ctor_total _ _ _ _, by simp, by simp⟩)
  | none =>
    simp only
    by_cases h₁ : dictSet cmd = true
    · rw [if_pos h₁]
      exact Or.inr (Or.inr ⟨ctor_total _ _ _ _, by simp [h₁], by simp [h₁]⟩)
    rw [if_neg h₁]
    have h₁' : dictSet cmd = false := by simpa using h₁
    by_cases h₂ : dictReplaceOrAdd cmd = true
    · rw [if_pos h₂]
      exact Or.inr (Or.inr ⟨ctor_total _ _ _ _, by simp [h₂], by simp [h₂]⟩)
    rw [if_neg h₂]
    have h₂' : dictReplaceOrAdd cmd = false := by simpa using h₂
    by_cases h₃ : (readOpParam cmd).1 = "TUPLE"
    · rw [if_pos h₃]
      cases hl : lexical_cast_int (readOpParam cmd).2 with
      | error e =>
        have he := lexical_cast_int_error hl
        subst he
        exact Or.inr (Or.inl ⟨rfl, trivial, h₁', h₂', Or.inl h₃, rfl⟩)
      | ok ret =>
        exact Or.inr (Or.inr ⟨ctor_total _ _ _ _, by simp [h₃], by simp⟩)
    rw [if_neg h₃]
    by_cases h₄ : (readOpParam cmd).1 = "UNTUPLE"
    · rw [if_pos h₄]
      cases hl : lexical_cast_int (readOpParam cmd).2 with
      | error e =>
        have he := lexical_cast_int_error hl
        subst he
        exact Or.inr (Or.inl ⟨rfl, trivial, h₁', h₂', Or.inr h₄, rfl⟩)
      | ok ret =>
        exact Or.inr (Or.inr ⟨ctor_total _ _ _ _, by simp [h₄], by simp⟩)
    rw [if_neg h₄]
    by_cases h₅ : (readOpParam cmd).1 = "LSHIFT" ∨ (readOpParam cmd).1 = "RSHIFT"
    · rw [if_pos h₅]
      have hmem : (readOpParam cmd).1 ∈ ["TUPLE", "UNTUPLE", "LSHIFT", "RSHIFT", "MULRSHIFT"] := by
        rcases h₅ with h | h <;> rw [h] <;> simp
      refine Or.inr (Or.inr ⟨?_, fun h => h.2.2.2 hmem, fun h => ?_⟩)
      · split <;> exact ctor_total _ _ _ _
      · rcases h.2.2.2.1 with h | h
        · exact h₃ h
        · exact h₄ h
    rw [if_neg h₅]
    by_cases h₆ : (readOpParam cmd).1 = "MULRSHIFT"
    · rw [if_pos h₆]
      have hmem : (readOpParam cmd).1 ∈ ["TUPLE", "UNTUPLE", "LSHIFT", "RSHIFT", "MULRSHIFT"] := by
        rw [h₆]; simp
      refine Or.inr (Or.inr ⟨?_, fun h => h.2.2.2 hmem, fun h => ?_⟩)
      · split <;> exact ctor_total _ _ _ _
      · rcases h.2.2.2.1 with h | h
        · exact h₃ h
        · exact h₄ h
    rw [if_neg h₆]
    refine Or.inl ⟨rfl, trivial, h₁', h₂', ?_⟩
    simp only [List.mem_cons, List.mem_singleton, List.not_mem_nil, or_false, not_or]
    exact ⟨h₃, h₄, fun h => h₅ (Or.inl h), fun h => h₅ (Or.inr h), h₆⟩

/-! ## The claims -/

/-- C1: `make_PUSH i` returns the `PUSH_S` node carrying `i` exactly when
`0 ≤ i ≤ 255`, `make_XCH_S i` and `make_POP i` return the `XCHG_S0`, respectively
`POP_S`, node carrying `i` exactly when `1 ≤ i ≤ 255`; outside the range the
assertion fails and no node is returned.  In particular `make_PUSH 256` fails
while `make_PUSH 255` and `make_PUSH 0` succeed. -/
theorem single_slot_range (unset i : Int) :
    (make_PUSH unset i =
        if 0 ≤ i ∧ i ≤ 255 then .ok ⟨.PUSH_S, i, unset, unset⟩
        else .error .InternalCompilerError) ∧
    (make_XCH_S unset i =
        if 1 ≤ i ∧ i ≤ 255 then .ok ⟨.XCHG_S0, i, unset, unset⟩
        else .error .InternalCompilerError) ∧
    (make_POP unset i =
        if 1 ≤ i ∧ i ≤ 255 then .ok ⟨.POP_S, i, unset, unset⟩
        else .error .InternalCompilerError) ∧
    make_PUSH unset 256 = .error .InternalCompilerError ∧
    make_PUSH unset 255 = .ok ⟨.PUSH_S, 255, unset, unset⟩ ∧
    make_PUSH unset 0 = .ok ⟨.PUSH_S, 0, unset, unset⟩ := by
  refine ⟨rfl, rfl, rfl, ?_, ?_, ?_⟩ <;> simp [make_PUSH]

/-- C2: for every index in `[0,15]`, `make_BLKPUSH 1 index` is the node
`make_PUSH index` returns (opcode `PUSH_S`, same operands), and
`make_BLKDROP2 1 1` is the node `make_POP 1` returns; every other in-range pair
gives a `BLKPUSH` node carrying `(qty, index)`, respectively a `BLKDROP2` node
carrying `(droppedCount, leftCount)`. -/
theorem degenerate_normalization (unset : Int) :
    (∀ index : Int, 0 ≤ index → index ≤ 15 →
        make_BLKPUSH unset 1 index = make_PUSH unset index ∧
        make_PUSH unset index = .ok ⟨.PUSH_S, index, unset, unset⟩) ∧
    (make_BLKDROP2 unset 1 1 = make_POP unset 1 ∧
        make_POP unset 1 = .ok ⟨.POP_S, 1, unset, unset⟩) ∧
    (∀ qty index : Int, 1 ≤ qty → qty ≤ 15 → 0 ≤ index → index ≤ 15 → qty ≠ 1 →
        make_BLKPUSH unset qty index = .ok ⟨.BLKPUSH, qty, index, unset⟩) ∧
    (∀ droppedCount leftCount : Int, 1 ≤ droppedCount → droppedCount ≤ 15 →
        0 ≤ leftCount → leftCount ≤ 15 → ¬ (droppedCount = 1 ∧ leftCount = 1) →
        make_BLKDROP2 unset droppedCount leftCount =
          .ok ⟨.BLKDROP2, droppedCount, leftCount, unset⟩) := by
  refine ⟨?_, ?_, ?_, ?_⟩
  · intro index h0 h15
    have h255 : index ≤ 255 := by omega
    simp [make_BLKPUSH, make_PUSH, h0, h15, h255]
  · simp [make_BLKDROP2, make_POP]
  · intro qty index h1 h2 h3 h4 h5
    simp [make_BLKPUSH, h1, h2, h3, h4, h5]
  · intro d l h1 h2 h3 h4 h5
    have h6 : ¬ (l = 1 ∧ d = 1) := fun h => h5 ⟨h.2, h.1⟩
    simp only [make_BLKDROP2, h1, h2, h3, h4, h6, and_self, if_true, if_false]

/-- The normalisation at `index = 7`, at `(1, 1)`, and the two generic forms at
`(2, 7)` and `(1, 0)`. -/
theorem degenerate_normalization_witness :
    (make_BLKPUSH (-1) 1 7 = make_PUSH (-1) 7 ∧
      make_PUSH (-1) 7 = .ok ⟨.PUSH_S, 7, -1, -1⟩) ∧
    make_BLKPUSH (-1) 2 7 = .ok ⟨.BLKPUSH, 2, 7, -1⟩ ∧
    make_BLKDROP2 (-1) 1 0 = .ok ⟨.BLKDROP2, 1, 0, -1⟩ :=
  ⟨(degenerate_normalization (-1)).1 7 (by decide) (by decide),
   (degenerate_normalization (-1)).2.2.1 2 7 (by decide) (by decide) (by decide) (by decide)
     (by decide),
   (degenerate_normalization (-1)).2.2.2 1 0 (by decide) (by decide) (by decide) (by decide)
     (by decide)⟩

/-- C9: `makeRevert` maps `IF` to `IFNOT`, `IFNOT` to `IF`, `IFJMP` to `IFNOTJMP`
and `IFNOTJMP` to `IFJMP`, each time with the true body of the input and no
false body; for `IFELSE` and `IFELSE_WITH_JMP` it keeps the type and swaps the
two bodies.  Hence a one-armed result has no false body, and the result for a
two-armed input that has both bodies has both bodies. -/
theorem makeRevert_complement (node : TvmIfElse) :
    (node.type = .IF → makeRevert node = .mk .IFNOT node.trueBody none) ∧
    (node.type = .IFNOT → makeRevert node = .mk .IF node.trueBody none) ∧
    (node.type = .IFJMP → makeRevert node = .mk .IFNOTJMP node.trueBody none) ∧
    (node.type = .IFNOTJMP → makeRevert node = .mk .IFJMP node.trueBody none) ∧
    (node.type = .IFELSE → makeRevert node = .mk .IFELSE node.falseBody node.trueBody) ∧
    (node.type = .IFELSE_WITH_JMP →
        makeRevert node = .mk .IFELSE_WITH_JMP node.falseBody node.trueBody) ∧
    (((makeRevert node).type = .IF ∨ (makeRevert node).type = .IFNOT ∨
        (makeRevert node).type = .IFJMP ∨ (makeRevert node).type = .IFNOTJMP) →
        (makeRevert node).falseBody = none) ∧
    ((node.type = .IFELSE ∨ node.type = .IFELSE_WITH_JMP) →
        node.trueBody.isSome = true → node.falseBody.isSome = true →
        ((makeRevert node).type = node.type ∧
          (makeRevert node).trueBody.isSome = true ∧
          (makeRevert node).falseBody.isSome = true)) := by
  obtain ⟨t, tb, fb⟩ := node
  cases t <;>
    simp [makeRevert, TvmIfElse.type, TvmIfElse.trueBody, TvmIfElse.falseBody] <;>
    exact fun h₁ h₂ => ⟨h₂, h₁⟩

/-- The inversion of an `IF` with a one-instruction body, and of an `IFELSE`
with two bodies. -/
theorem makeRevert_complement_witness :
    makeRevert (.mk .IF (some (.mk .PUSHCONT [.stack (make_DUP2 0)])) none) =
      .mk .IFNOT (some (.mk .PUSHCONT [.stack (make_DUP2 0)])) none ∧
    makeRevert (.mk .IFELSE (some (.mk .PUSHCONT [.stack (make_DUP2 0)]))
        (some (.mk .PUSHCONT []))) =
      .mk .IFELSE (some (.mk .PUSHCONT [])) (some (.mk .PUSHCONT [.stack (make_DUP2 0)])) :=
  ⟨(makeRevert_complement _).1 rfl, (makeRevert_complement _).2.2.2.2.1 rfl⟩

/-- C10: on a conditional of type `IF`, `IFNOT`, `IFJMP` or `IFNOTJMP` without a
false body, inverting twice gives back the conditional. -/
theorem makeRevert_involutive (n : TvmIfElse)
    (ht : n.type = .IF ∨ n.type = .IFNOT ∨ n.type = .IFJMP ∨ n.type = .IFNOTJMP)
    (hf : n.falseBody = none) :
    makeRevert (makeRevert n) = n := by
  obtain ⟨t, tb, fb⟩ := n
  simp only [TvmIfElse.falseBody] at hf
  subst hf
  cases t <;>
    simp [makeRevert, TvmIfElse.type, TvmIfElse.trueBody] at ht ⊢

/-- Inverting an `IFJMP` with a one-instruction body twice. -/
theorem makeRevert_involutive_witness :
    makeRevert (makeRevert (.mk .IFJMP (some (.mk .PUSHCONT [.stack (make_DUP2 0)])) none)) =
      .mk .IFJMP (some (.mk .PUSHCONT [.stack (make_DUP2 0)])) none :=
  makeRevert_involutive _ (Or.inr (Or.inr (Or.inl rfl))) rfl

/-- C7: for a mnemonic `m` that holds neither white space nor `;`, an argument `a`
that is not empty and holds neither white space nor `;`, and a comment text `c`
that is not empty and holds no `;`, the `GenOpcode` constructed from
`m ++ " " ++ a ++ ";" ++ c` has opcode `m`, argument `a` and comment
`";" ++ c`, and its `fullOpcode` is `m ++ " " ++ a ++ " ;" ++ c`.  (The
mnemonic need not even be non-empty for this, and the proof does not use the
two conditions on `c`.) -/
theorem fullOpcode_round_trip (m a c : String) (take ret : Int) (isPure : Bool)
    (hmw : ∀ x ∈ m.data, isspace x = false) (hms : ';' ∉ m.data)
    (ha : a ≠ "") (haw : ∀ x ∈ a.data, isspace x = false) (has : ';' ∉ a.data)
    (hc : c ≠ "") (hcs : ';' ∉ c.data) :
    ∃ g : GenOpcode,
      GenOpcode.ctor (m ++ " " ++ a ++ ";" ++ c) take ret isPure = .ok g ∧
      g.m_opcode = m ∧ g.m_arg = a ∧ g.m_comment = ";" ++ c ∧
      g.fullOpcode = m ++ " " ++ a ++ " ;" ++ c := by
  have _ := hc
  have _ := hcs
  refine ⟨⟨m, a, ";" ++ c, take, ret, isPure⟩,
    ctor_word_arg_comment take ret isPure hmw hms haw has, rfl, rfl, rfl, ?_⟩
  have hcomment : ";" ++ c ≠ "" := by
    intro h
    have := congrArg String.data h
    simp [String.data_append] at this
  simp only [GenOpcode.fullOpcode, ne_eq, ha, hcomment, not_false_eq_true, if_true]
  apply String.ext
  simp [String.data_append]

/-- The line `STU 64;store uint` is serialised again as `STU 64 ;store uint`. -/
theorem fullOpcode_round_trip_witness :
    ∃ g : GenOpcode,
      GenOpcode.ctor "STU 64;store uint" 2 1 false = .ok g ∧
      g.m_opcode = "STU" ∧ g.m_arg = "64" ∧ g.m_comment = ";store uint" ∧
      g.fullOpcode = "STU 64 ;store uint" :=
  fullOpcode_round_trip "STU" "64" "store uint" 2 1 false (by decide) (by decide)
    (by decide) (by decide) (by decide) (by decide) (by decide)

/-- C3 (amended): for every natural number `n ≤ 2147483647`, written in decimal,
`gen ("TUPLE " ++ n)` returns a node with `take = n` and `ret = 1`, and
`gen ("UNTUPLE " ++ n)` returns a node with `take = 1` and `ret = n`. -/
theorem tuple_arity (pureDflt : Bool) (n : Nat) (hn : n ≤ 2147483647) :
    gen pureDflt ("TUPLE " ++ toString n) =
      .ok ⟨"TUPLE", toString n, "", (n : Int), 1, pureDflt⟩ ∧
    gen pureDflt ("UNTUPLE " ++ toString n) =
      .ok ⟨"UNTUPLE", toString n, "", 1, (n : Int), pureDflt⟩ := by
  constructor
  · have h := gen_word_arg pureDflt (m := "TUPLE") (a := toString n) (by decide) (by decide)
      (by decide) (by decide) (by decide) (repr_no_space n) (repr_no_semicolon n)
    rw [lexical_cast_int_repr, if_pos hn] at h
    exact h
  · have h := gen_word_arg pureDflt (m := "UNTUPLE") (a := toString n) (by decide) (by decide)
      (by decide) (by decide) (by decide) (repr_no_space n) (repr_no_semicolon n)
    rw [lexical_cast_int_repr, if_pos hn] at h
    exact h

/-- The lines `TUPLE 5` and `UNTUPLE 3` give `(5, 1)` and `(1, 3)`. -/
theorem tuple_arity_witness :
    gen false "TUPLE 5" = .ok ⟨"TUPLE", "5", "", 5, 1, false⟩ ∧
    gen false "UNTUPLE 3" = .ok ⟨"UNTUPLE", "3", "", 1, 3, false⟩ :=
  ⟨(tuple_arity false 5 (by decide)).1, (tuple_arity false 3 (by decide)).2⟩

/-- C3 as stated fails at `n = 2147483648`: the numeral does not fit `int`, the
conversion of the argument throws and `gen` returns no node. -/
theorem tuple_arity_beyond_int :
    toString (2147483648 : Nat) = "2147483648" ∧
    gen false ("TUPLE " ++ toString (2147483648 : Nat)) = .error .bad_lexical_cast ∧
    gen false ("UNTUPLE " ++ toString (2147483648 : Nat)) = .error .bad_lexical_cast ∧
    ¬ ∃ g : GenOpcode, gen false ("TUPLE " ++ toString (2147483648 : Nat)) = .ok g ∧
        g.m_take = 2147483648 ∧ g.m_ret = 1 := by
  have h : gen false ("TUPLE " ++ toString (2147483648 : Nat)) = .error .bad_lexical_cast := rfl
  refine ⟨rfl, h, rfl, ?_⟩
  rintro ⟨g, hg, -⟩
  rw [h] at hg
  exact Except.noConfusion hg

/-- C4: `gen "LSHIFT"` and `gen "RSHIFT"` give `(take, ret) = (2, 1)` and
`gen "MULRSHIFT"` gives `(3, 1)`; followed by an argument `a` (a non-empty word
without `;`) the first two give `(1, 1)` and the third gives `(2, 1)`, whatever
the argument is. -/
theorem shift_arity (pureDflt : Bool) (a : String) (hne : a ≠ "")
    (haw : ∀ c ∈ a.data, isspace c = false) (has : ';' ∉ a.data) :
    gen pureDflt "LSHIFT" = .ok ⟨"LSHIFT", "", "", 2, 1, pureDflt⟩ ∧
    gen pureDflt ("LSHIFT " ++ a) = .ok ⟨"LSHIFT", a, "", 1, 1, pureDflt⟩ ∧
    gen pureDflt "RSHIFT" = .ok ⟨"RSHIFT", "", "", 2, 1, pureDflt⟩ ∧
    gen pureDflt ("RSHIFT " ++ a) = .ok ⟨"RSHIFT", a, "", 1, 1, pureDflt⟩ ∧
    gen pureDflt "MULRSHIFT" = .ok ⟨"MULRSHIFT", "", "", 3, 1, pureDflt⟩ ∧
    gen pureDflt ("MULRSHIFT " ++ a) = .ok ⟨"MULRSHIFT", a, "", 2, 1, pureDflt⟩ := by
  refine ⟨rfl, ?_, rfl, ?_, rfl, ?_⟩
  · have h := gen_word_arg pureDflt (m := "LSHIFT") (a := a) (by decide) (by decide)
      (by decide) (by decide) (by decide) haw has
    rw [if_neg (by decide), if_neg (by decide), if_pos (by decide), if_neg hne] at h
    exact h
  · have h := gen_word_arg pureDflt (m := "RSHIFT") (a := a) (by decide) (by decide)
      (by decide) (by decide) (by decide) haw has
    rw [if_neg (by decide), if_neg (by decide), if_pos (by decide), if_neg hne] at h
    exact h
  · have h := gen_word_arg pureDflt (m := "MULRSHIFT") (a := a) (by decide) (by decide)
      (by decide) (by decide) (by decide) haw has
    rw [if_neg (by decide), if_neg (by decide), if_neg (by decide), if_pos (by decide),
      if_neg hne] at h
    exact h

/-- The lines `LSHIFT` and `LSHIFT 4` give `(2, 1)` and `(1, 1)`. -/
theorem shift_arity_witness :
    gen false "LSHIFT" = .ok ⟨"LSHIFT", "", "", 2, 1, false⟩ ∧
    gen false "LSHIFT 4" = .ok ⟨"LSHIFT", "4", "", 1, 1, false⟩ :=
  ⟨(shift_arity false "4" (by decide) (by decide) (by decide)).1,
   (shift_arity false "4" (by decide) (by decide) (by decide)).2.1⟩

/-- C6: for every entry `(m, p)` of the static table and every argument word `a`
(no white space, no `;`), `gen m` and `gen (m ++ " " ++ a)` succeed and the node
carries the triple `p` that the table records for `m`, whatever `a` is.  The
purity flag is set for exactly the 15 listed mnemonics, each of which is a key
with the triple `(0, 1, pure)`; `STU` is `(2, 1, not pure)`, `CDATASIZE` is
`(2, 3, not pure)`, `PUSHINT` is `(0, 1, pure)` and `RANDU256` is
`(0, 1, not pure)`. -/
theorem gen_table_triple (pureDflt : Bool) (m : String) (p : OpcodeParams)
    (hmem : (m, p) ∈ opcodes) (a : String)
    (haw : ∀ c ∈ a.data, isspace c = false) (has : ';' ∉ a.data) :
    gen pureDflt m = .ok ⟨m, "", "", p.take, p.ret, p.isPure⟩ ∧
    gen pureDflt (m ++ " " ++ a) = .ok ⟨m, a, "", p.take, p.ret, p.isPure⟩ ∧
    (p.isPure = true ↔
      m ∈ ["BLOCKLT", "FALSE", "GETPARAM", "LTIME", "MYADDR", "NEWC", "NEWDICT", "NIL",
        "NOW", "NULL", "PUSHINT", "PUSHPOW2DEC", "PUSHSLICE", "RANDSEED", "TRUE"]) ∧
    (p.isPure = true → p.take = 0 ∧ p.ret = 1) ∧
    (∀ k ∈ ["BLOCKLT", "FALSE", "GETPARAM", "LTIME", "MYADDR", "NEWC", "NEWDICT", "NIL",
        "NOW", "NULL", "PUSHINT", "PUSHPOW2DEC", "PUSHSLICE", "RANDSEED", "TRUE"],
      opcodesAt k = some ⟨0, 1, true⟩) ∧
    gen pureDflt "STU" = .ok ⟨"STU", "", "", 2, 1, false⟩ ∧
    gen pureDflt "CDATASIZE" = .ok ⟨"CDATASIZE", "", "", 2, 3, false⟩ ∧
    gen pureDflt "PUSHINT" = .ok ⟨"PUSHINT", "", "", 0, 1, true⟩ ∧
    gen pureDflt "RANDU256" = .ok ⟨"RANDU256", "", "", 0, 1, false⟩ := by
  obtain ⟨hne, hmw, hms⟩ := opcodes_keys (m, p) hmem
  have hat : opcodesAt m = some p := opcodes_lookup (m, p) hmem
  refine ⟨?_, ?_, (opcodes_pure (m, p) hmem).1, (opcodes_pure (m, p) hmem).2, pure_keys,
    rfl, rfl, rfl, rfl⟩
  · rw [gen_of_table pureDflt (p := p) (by rw [readOpParam_word hmw]; exact hat)]
    exact ctor_word p.take p.ret p.isPure hmw hms
  · rw [gen_of_table pureDflt (p := p) (by rw [readOpParam_word_arg hne hmw haw]; exact hat)]
    exact ctor_word_arg p.take p.ret p.isPure hmw hms haw has

/-- The table entry of `STU`, without and with the argument `64`. -/
theorem gen_table_triple_witness :
    gen false "STU" = .ok ⟨"STU", "", "", 2, 1, false⟩ ∧
    gen false "STU 64" = .ok ⟨"STU", "64", "", 2, 1, false⟩ :=
  ⟨(gen_table_triple false "STU" ⟨2, 1, false⟩ (by decide) "64" (by decide) (by decide)).1,
   (gen_table_triple false "STU" ⟨2, 1, false⟩ (by decide) "64" (by decide) (by decide)).2.1⟩

/-- C5: the dictionary rules compare the whole line with the candidate names.  A
line that is exactly one of the 9 names `DICT[I|U]SET[REF|B]` gives `(4, 1)` and
a line that is exactly one of the 18 names `DICT[I|U](REPLACE|ADD)[REF|B]` gives
`(4, 2)`; with a trailing comment or argument the same mnemonic is not resolved
and `gen` fails as unimplemented, whereas a table mnemonic such as `ACCEPT` is
resolved with a trailing comment. -/
theorem dict_rules_compare_line (pureDflt : Bool) :
    ["DICTSET", "DICTSETREF", "DICTSETB", "DICTISET", "DICTISETREF", "DICTISETB",
      "DICTUSET", "DICTUSETREF", "DICTUSETB"].map (gen pureDflt) =
    ["DICTSET", "DICTSETREF", "DICTSETB", "DICTISET", "DICTISETREF", "DICTISETB",
      "DICTUSET", "DICTUSETREF", "DICTUSETB"].map
        (fun m => .ok ⟨m, "", "", 4, 1, pureDflt⟩) ∧
    ["DICTREPLACE", "DICTREPLACEREF", "DICTREPLACEB", "DICTADD", "DICTADDREF", "DICTADDB",
      "DICTIREPLACE", "DICTIREPLACEREF", "DICTIREPLACEB", "DICTIADD", "DICTIADDREF",
      "DICTIADDB", "DICTUREPLACE", "DICTUREPLACEREF", "DICTUREPLACEB", "DICTUADD",
      "DICTUADDREF", "DICTUADDB"].map (gen pureDflt) =
    ["DICTREPLACE", "DICTREPLACEREF", "DICTREPLACEB", "DICTADD", "DICTADDREF", "DICTADDB",
      "DICTIREPLACE", "DICTIREPLACEREF", "DICTIREPLACEB", "DICTIADD", "DICTIADDREF",
      "DICTIADDB", "DICTUREPLACE", "DICTUREPLACEREF", "DICTUREPLACEB", "DICTUADD",
      "DICTUADDREF", "DICTUADDB"].map
        (fun m => .ok ⟨m, "", "", 4, 2, pureDflt⟩) ∧
    gen pureDflt "DICTISETREF ;c" = .error .UnimplementedFeatureError ∧
    gen pureDflt "DICTISETREF 1" = .error .UnimplementedFeatureError ∧
    gen pureDflt "DICTUADDB ;c" = .error .UnimplementedFeatureError ∧
    gen pureDflt "ACCEPT ;c" = .ok ⟨"ACCEPT", "", ";c", 0, 0, false⟩ :=
  ⟨rfl, rfl, rfl, rfl, rfl, rfl⟩

/-- C8: `gen` reads the mnemonic and the argument from the whole line, comment
included.  `ACCEPT` is resolved to `(0, 0)` but `ACCEPT;c` is not resolved at
all, and `LSHIFT` is resolved to `(2, 1)` but `LSHIFT ;c` to `(1, 1)`: the comment
is taken for the argument, although the node built from that line has an empty
argument and the comment `;c`. -/
theorem gen_reads_comment (pureDflt : Bool) :
    gen pureDflt "ACCEPT" = .ok ⟨"ACCEPT", "", "", 0, 0, false⟩ ∧
    gen pureDflt "ACCEPT;c" = .error .UnimplementedFeatureError ∧
    gen pureDflt "LSHIFT" = .ok ⟨"LSHIFT", "", "", 2, 1, pureDflt⟩ ∧
    gen pureDflt "LSHIFT ;c" = .ok ⟨"LSHIFT", "", ";c", 1, 1, pureDflt⟩ ∧
    gen pureDflt "LSHIFT;c" = .error .UnimplementedFeatureError :=
  ⟨rfl, rfl, rfl, rfl, rfl⟩

/-- C11: for a visitor whose pre-visit callbacks all return `true` and a tree
without a null true body, `accept` ends, and the pre-visit invocations it makes
are on the nodes of the tree in depth-first, left-to-right pre-order, each node
once: a block before its instructions and these in sequence, the condition of
a `While` before its body, a conditional before its true body (with all its
contents) and this before its false body (with all its contents), a contract
before its functions and these in list order. -/
theorem traversal_preorder {σ : Type} (v : TvmAstVisitor σ)
    (hv : ∀ m t, (v.visit m t).1 = true) (n : TvmAstNode) (hn : n.wellFormed = true)
    (s : σ) (log : List Call) :
    (∃ (s' : σ) (tr : List Call),
      TvmAstNode.accept (recording v) n (s, log) = some (s', log ++ tr) ∧
      visited tr = n.preorder) ∧
    (∀ type instructions,
      TvmAstNode.preorder (.codeBlock (.mk type instructions)) =
        .codeBlock (.mk type instructions) :: preorderInstructions instructions) ∧
    (∀ node rest,
      preorderInstructions (node :: rest) = node.preorder ++ preorderInstructions rest) ∧
    (∀ condition body,
      TvmAstNode.preorder (.whileLoop (.mk condition body)) =
        .whileLoop (.mk condition body) ::
          (TvmAstNode.preorder (.codeBlock condition) ++ TvmAstNode.preorder (.codeBlock body))) ∧
    (∀ type t f,
      TvmAstNode.preorder (.tvmIfElse (.mk type (some t) (some f))) =
        .tvmIfElse (.mk type (some t) (some f)) ::
          (TvmAstNode.preorder (.codeBlock t) ++ TvmAstNode.preorder (.codeBlock f))) ∧
    (∀ functions,
      TvmAstNode.preorder (.contract (.mk functions)) =
        .contract (.mk functions) :: preorderFunctions functions) ∧
    (∀ node rest,
      preorderFunctions (node :: rest) =
        TvmAstNode.preorder (.function node) ++ preorderFunctions rest) := by
  refine ⟨?_, ?_, ?_, ?_, ?_, ?_, ?_⟩
  · obtain ⟨s', tr, h₁, h₂, -⟩ := node_traceSpec v n hn s
    exact ⟨s', tr, h₁ log, h₂ hv⟩
  · intro type instructions
    simp only [TvmAstNode.preorder, CodeBlock.preorder]
  · intro node rest
    simp only [preorderInstructions]
  · intro condition body
    simp only [TvmAstNode.preorder, While.preorder]
  · intro type t f
    simp only [TvmAstNode.preorder, TvmIfElse.preorder, preorderBody]
  · intro functions
    simp only [TvmAstNode.preorder, Contract.preorder]
  · intro node rest
    simp only [preorderFunctions, TvmAstNode.preorder]

/-- The traversal of a two-armed conditional by a visitor that counts the
pre-visits: the conditional, its true body and the instruction in it, then its
false body and the instruction in it. -/
theorem traversal_preorder_witness :
    ∃ (s' : Nat) (tr : List Call),
      TvmAstNode.accept (recording ⟨fun _ s => (true, s + 1), fun _ s => s⟩)
        (.tvmIfElse (.mk .IFELSE (some (.mk .PUSHCONT [.stack (make_DUP2 0)]))
          (some (.mk .PUSHCONT [.conFlowInst make_RET])))) (0, []) = some (s', [] ++ tr) ∧
      visited tr =
        [.tvmIfElse (.mk .IFELSE (some (.mk .PUSHCONT [.stack (make_DUP2 0)]))
            (some (.mk .PUSHCONT [.conFlowInst make_RET]))),
          .codeBlock (.mk .PUSHCONT [.stack (make_DUP2 0)]),
          .stack (make_DUP2 0),
          .codeBlock (.mk .PUSHCONT [.conFlowInst make_RET]),
          .conFlowInst make_RET] :=
  (traversal_preorder ⟨fun _ s => (true, s + 1), fun _ s => s⟩ (fun _ _ => rfl)
    (.tvmIfElse (.mk .IFELSE (some (.mk .PUSHCONT [.stack (make_DUP2 0)]))
      (some (.mk .PUSHCONT [.conFlowInst make_RET])))) rfl 0 []).1

/-- C12: when the pre-visit callback on a node returns `false`, `accept` invokes
no further callback, except that on a `CodeBlock` it invokes `endVisit` of that
block right after; so no callback is invoked on a descendant, for every kind of
node with children.  When the pre-visit callback on a `CodeBlock` returns
`true`, the callbacks `accept` invokes are the pre-visit, then those of the
traversal of the instructions, then `endVisit` of the block, once: no call of
the instructions' traversal is on the block itself. -/
theorem visitor_short_circuit {σ : Type} (v : TvmAstVisitor σ) (s : σ) (log : List Call) :
    (∀ n : TvmAstNode, (v.visit n s).1 = false →
      TvmAstNode.accept (recording v) n (s, log) =
        match n with
        | .codeBlock b =>
          some (v.endVisit b (v.visit n s).2, log ++ [Call.visit n, Call.endVisit b])
        | _ => some ((v.visit n s).2, log ++ [Call.visit n])) ∧
    (∀ type instructions, (v.visit (.codeBlock (.mk type instructions)) s).1 = true →
      wellFormedInstructions instructions = true →
      ∃ (s' : σ) (tr : List Call),
        acceptInstructions (recording v) instructions
          ((v.visit (.codeBlock (.mk type instructions)) s).2, []) = some (s', tr) ∧
        TvmAstNode.accept (recording v) (.codeBlock (.mk type instructions)) (s, log) =
          some (v.endVisit (.mk type instructions) s',
            log ++ [Call.visit (.codeBlock (.mk type instructions))] ++ tr ++
              [Call.endVisit (.mk type instructions)]) ∧
        Call.endVisit (.mk type instructions) ∉ tr ∧
        Call.visit (.codeBlock (.mk type instructions)) ∉ tr) := by
  constructor
  · intro n hb
    cases n with
    | loc n => simp [TvmAstNode.accept, recording_visit]
    | stack n => simp [TvmAstNode.accept, recording_visit]
    | glob n => simp [TvmAstNode.accept, recording_visit]
    | asymGen n => simp [TvmAstNode.accept, recording_visit]
    | hardCode n => simp [TvmAstNode.accept, recording_visit]
    | genOpcode n => simp [TvmAstNode.accept, recording_visit]
    | conFlowInst n => simp [TvmAstNode.accept, recording_visit]
    | opaqueBlock n =>
      cases n
      simp [TvmAstNode.accept, Opaque.accept, recording_visit, hb]
    | pushCellOrSlice n =>
      cases n
      simp [TvmAstNode.accept, PushCellOrSlice.accept, recording_visit, hb]
    | codeBlock n =>
      cases n
      simp [TvmAstNode.accept, CodeBlock.accept, recording_visit, recording_endVisit, hb]
    | tvmIfElse n =>
      cases n
      simp [TvmAstNode.accept, TvmIfElse.accept, recording_visit, hb]
    | repeatOrUntil n =>
      cases n
      simp [TvmAstNode.accept, RepeatOrUntil.accept, recording_visit, hb]
    | whileLoop n =>
      cases n
      simp [TvmAstNode.accept, While.accept, recording_visit, hb]
    | function n =>
      cases n
      simp [TvmAstNode.accept, Function.accept, recording_visit, hb]
    | contract n =>
      cases n
      simp [TvmAstNode.accept, Contract.accept, recording_visit, hb]
  · intro type instructions hb hwf
    obtain ⟨s', tr, h₁, -, h₃⟩ := instructions_traceSpec v instructions hwf
      (v.visit (.codeBlock (.mk type instructions)) s).2
    refine ⟨s', tr, by simpa using h₁ [], ?_, ?_, ?_⟩
    · simp [TvmAstNode.accept, CodeBlock.accept, recording_visit, recording_endVisit, hb, h₁]
    · intro hmem
      have := h₃ _ hmem
      simp [Call.Within] at this
      omega
    · intro hmem
      have := h₃ _ hmem
      simp [Call.Within] at this
      omega

/-- A block whose pre-visit callback returns `false`: the two callbacks on the
block and none on its instruction.  A block whose pre-visit callback returns
`true`: the pre-visit, the callback on the instruction, the post-visit. -/
theorem visitor_short_circuit_witness :
    TvmAstNode.accept (recording ⟨fun _ (s : Nat) => (false, s), fun _ s => s⟩)
        (.codeBlock (.mk .PUSHCONT [.stack (make_DUP2 0)])) (0, []) =
      some (0, [] ++ [Call.visit (.codeBlock (.mk .PUSHCONT [.stack (make_DUP2 0)])),
        Call.endVisit (.mk .PUSHCONT [.stack (make_DUP2 0)])]) ∧
    ∃ (s' : Nat) (tr : List Call),
      acceptInstructions (recording ⟨fun _ (s : Nat) => (true, s), fun _ s => s⟩)
        [.stack (make_DUP2 0)] (0, []) = some (s', tr) ∧
      TvmAstNode.accept (recording ⟨fun _ (s : Nat) => (true, s), fun _ s => s⟩)
          (.codeBlock (.mk .PUSHCONT [.stack (make_DUP2 0)])) (0, []) =
        some (s', [] ++ [Call.visit (.codeBlock (.mk .PUSHCONT [.stack (make_DUP2 0)]))] ++ tr ++
          [Call.endVisit (.mk .PUSHCONT [.stack (make_DUP2 0)])]) ∧
      Call.endVisit (.mk .PUSHCONT [.stack (make_DUP2 0)]) ∉ tr ∧
      Call.visit (.codeBlock (.mk .PUSHCONT [.stack (make_DUP2 0)])) ∉ tr :=
  ⟨(visitor_short_circuit ⟨fun _ (s : Nat) => (false, s), fun _ s => s⟩ 0 []).1
      (.codeBlock (.mk .PUSHCONT [.stack (make_DUP2 0)])) rfl,
   (visitor_short_circuit ⟨fun _ (s : Nat) => (true, s), fun _ s => s⟩ 0 []).2
      .PUSHCONT [.stack (make_DUP2 0)] rfl rfl⟩

/-- C13: `make_BLKPUSH qty index` returns a node exactly when `1 ≤ qty ≤ 15` and
`0 ≤ index ≤ 15`, `make_PUSH2 i j` exactly when `i` and `j` are in `[0,15]`,
`make_PUSH3 i j k` exactly when `i`, `j` and `k` are in `[0,15]`, and
`make_BLKDROP2 droppedCount leftCount` exactly when `1 ≤ droppedCount ≤ 15` and
`0 ≤ leftCount ≤ 15`; outside the range the assertion fails.  So
`make_BLKPUSH 1 index` fails for `16 ≤ index ≤ 255` although `make_PUSH index`
returns a node. -/
theorem compact_factories_range (unset qty index i j k droppedCount leftCount : Int) :
    (make_BLKPUSH unset qty index =
      if (1 ≤ qty ∧ qty ≤ 15) ∧ (0 ≤ index ∧ index ≤ 15) then
        .ok (if qty = 1 then ⟨.PUSH_S, index, unset, unset⟩
          else ⟨.BLKPUSH, qty, index, unset⟩)
      else .error .InternalCompilerError) ∧
    (make_PUSH2 unset i j =
      if (0 ≤ i ∧ i ≤ 15) ∧ (0 ≤ j ∧ j ≤ 15) then .ok ⟨.PUSH2_S, i, j, unset⟩
      else .error .InternalCompilerError) ∧
    (make_PUSH3 i j k =
      if (0 ≤ i ∧ i ≤ 15) ∧ (0 ≤ j ∧ j ≤ 15) ∧ (0 ≤ k ∧ k ≤ 15) then .ok ⟨.PUSH3_S, i, j, k⟩
      else .error .InternalCompilerError) ∧
    (make_BLKDROP2 unset droppedCount leftCount =
      if (1 ≤ droppedCount ∧ droppedCount ≤ 15) ∧ (0 ≤ leftCount ∧ leftCount ≤ 15) then
        .ok (if leftCount = 1 ∧ droppedCount = 1 then ⟨.POP_S, 1, unset, unset⟩
          else ⟨.BLKDROP2, droppedCount, leftCount, unset⟩)
      else .error .InternalCompilerError) ∧
    (16 ≤ index → index ≤ 255 →
      make_BLKPUSH unset 1 index = .error .InternalCompilerError ∧
      make_PUSH unset index = .ok ⟨.PUSH_S, index, unset, unset⟩) := by
  refine ⟨?_, ?_, ?_, ?_, ?_⟩
  · unfold make_BLKPUSH make_PUSH
    by_cases h₁ : 1 ≤ qty ∧ qty ≤ 15
    · by_cases h₂ : 0 ≤ index ∧ index ≤ 15
      · have h₃ : index ≤ 255 := by omega
        by_cases h₅ : qty = 1
        · simp [h₂, h₃, h₅]
        · simp [h₁, h₂, h₅]
      · simp [h₁, h₂]
    · simp [h₁]
  · unfold make_PUSH2
    by_cases h₁ : 0 ≤ i ∧ i ≤ 15 <;> by_cases h₂ : 0 ≤ j ∧ j ≤ 15 <;> simp [h₁, h₂]
  · unfold make_PUSH3
    by_cases h₁ : 0 ≤ i ∧ i ≤ 15 <;> by_cases h₂ : 0 ≤ j ∧ j ≤ 15 <;>
      by_cases h₃ : 0 ≤ k ∧ k ≤ 15 <;> simp [h₁, h₂, h₃]
  · unfold make_BLKDROP2
    by_cases h₁ : 1 ≤ droppedCount ∧ droppedCount ≤ 15 <;>
      by_cases h₂ : 0 ≤ leftCount ∧ leftCount ≤ 15 <;>
      by_cases h₃ : leftCount = 1 ∧ droppedCount = 1 <;> simp [h₁, h₂, h₃]
  · intro h₁ h₂
    have h₃ : ¬ index ≤ 15 := by omega
    have h₄ : 0 ≤ index := by omega
    simp [make_BLKPUSH, make_PUSH, h₂, h₃, h₄]

/-- The index 16: refused by `make_BLKPUSH 1`, accepted by `make_PUSH`. -/
theorem compact_factories_range_witness :
    make_BLKPUSH (-1) 1 16 = .error .InternalCompilerError ∧
    make_PUSH (-1) 16 = .ok ⟨.PUSH_S, 16, -1, -1⟩ :=
  (compact_factories_range (-1) 1 16 0 0 0 1 0).2.2.2.2 (by decide) (by decide)

/-- C14: `make_reverse` has no assertion: it returns the `REVERSE` node for every
pair of integers, also for negative extents such as `(-1, 0)` and `(0, -5)`,
whereas a factory with an assertion, such as `make_PUSH`, refuses a negative
operand. -/
theorem make_reverse_unchecked (unset i j : Int) :
    make_reverse unset i j = ⟨.REVERSE, i, j, unset⟩ ∧
    make_reverse unset (-1) 0 = ⟨.REVERSE, -1, 0, unset⟩ ∧
    make_reverse unset 0 (-5) = ⟨.REVERSE, 0, -5, unset⟩ ∧
    make_PUSH unset (-1) = .error .InternalCompilerError :=
  ⟨rfl, rfl, rfl, rfl⟩

/-- C15: `make_THROW` returns a node exactly when the first word of the line is
one of the twelve mnemonics `THROW[ARG][ANY][IF|IFNOT]`; the node has `ret = 0`
and its `take` is the number of the modifiers `ARG`, `ANY` and `IF`/`IFNOT` in
the mnemonic, whatever follows the mnemonic on the line: 0 for `THROW`; 1 for
`THROWANY`, `THROWARG`, `THROWIF`, `THROWIFNOT`; 2 for `THROWANYIF`,
`THROWANYIFNOT`, `THROWARGANY`, `THROWARGIF`, `THROWARGIFNOT`; 3 for
`THROWARGANYIF`, `THROWARGANYIFNOT`.  For every other first word it fails as
unimplemented. -/
theorem throw_arity (cmd : String) :
    (∀ p ∈ [("THROW", (0 : Int)), ("THROWIF", 1), ("THROWIFNOT", 1), ("THROWANY", 1),
        ("THROWANYIF", 2), ("THROWANYIFNOT", 2), ("THROWARG", 1), ("THROWARGIF", 2),
        ("THROWARGIFNOT", 2), ("THROWARGANY", 2), ("THROWARGANYIF", 3),
        ("THROWARGANYIFNOT", 3)],
      (readOpParam cmd).1 = p.1 → make_THROW cmd = .ok ⟨cmd, p.2, 0⟩) ∧
    ((readOpParam cmd).1 ∉ ["THROW", "THROWIF", "THROWIFNOT", "THROWANY", "THROWANYIF",
        "THROWANYIFNOT", "THROWARG", "THROWARGIF", "THROWARGIFNOT", "THROWARGANY",
        "THROWARGANYIF", "THROWARGANYIFNOT"] →
      make_THROW cmd = .error .UnimplementedFeatureError) ∧
    ((["", "ARG"].flatMap fun arg => ["", "ANY"].flatMap fun any => ["", "IF", "IFNOT"].map fun cond =>
        ("THROW" ++ arg ++ any ++ cond,
          ((if arg = "" then 0 else 1) + (if any = "" then 0 else 1) +
            (if cond = "" then 0 else 1) : Int))) =
      [("THROW", 0), ("THROWIF", 1), ("THROWIFNOT", 1), ("THROWANY", 1),
        ("THROWANYIF", 2), ("THROWANYIFNOT", 2), ("THROWARG", 1), ("THROWARGIF", 2),
        ("THROWARGIFNOT", 2), ("THROWARGANY", 2), ("THROWARGANYIF", 3),
        ("THROWARGANYIFNOT", 3)]) := by
  refine ⟨?_, ?_, by decide⟩
  · intro p hp hop
    simp only [List.mem_cons, List.mem_singleton, List.not_mem_nil, or_false] at hp
    unfold make_THROW
    rw [hop]
    rcases hp with rfl | rfl | rfl | rfl | rfl | rfl | rfl | rfl | rfl | rfl | rfl | rfl <;> rfl
  · intro hop
    simp only [List.mem_cons, List.mem_singleton, List.not_mem_nil, or_false, not_or] at hop
    obtain ⟨h1, h2, h3, h4, h5, h6, h7, h8, h9, h10, h11, h12⟩ := hop
    simp only [make_THROW, h1, h2, h3, h4, h5, h6, h7, h8, h9, h10, h11, h12, decide_False,
      Bool.false_eq_true, if_false]

/-- The line `THROWARGANYIFNOT 5` takes 3 and returns 0; the line `THROWX` is
refused. -/
theorem throw_arity_witness :
    make_THROW "THROWARGANYIFNOT 5" = .ok ⟨"THROWARGANYIFNOT 5", 3, 0⟩ ∧
    make_THROW "THROWX" = .error .UnimplementedFeatureError :=
  ⟨(throw_arity "THROWARGANYIFNOT 5").1 ("THROWARGANYIFNOT", 3) (by decide) (by decide),
   (throw_arity "THROWX").2.1 (by decide)⟩

/-- C16: `CodeBlock::toString` maps each of the nine frame kinds `CALLREF`,
`IFREF`, `PUSHCONT`, `PUSHREFCONT`, `IFJMPREF`, `IFNOTJMPREF`, `PUSHREF`,
`IFNOTREF`, `CALLX` to the token spelled as the kind, so two kinds with the
same token are the same kind; for `None` it fails as unimplemented. -/
theorem toString_vocabulary :
    CodeBlock.toString .CALLREF = .ok "CALLREF" ∧
    CodeBlock.toString .IFREF = .ok "IFREF" ∧
    CodeBlock.toString .PUSHCONT = .ok "PUSHCONT" ∧
    CodeBlock.toString .PUSHREFCONT = .ok "PUSHREFCONT" ∧
    CodeBlock.toString .IFJMPREF = .ok "IFJMPREF" ∧
    CodeBlock.toString .IFNOTJMPREF = .ok "IFNOTJMPREF" ∧
    CodeBlock.toString .PUSHREF = .ok "PUSHREF" ∧
    CodeBlock.toString .IFNOTREF = .ok "IFNOTREF" ∧
    CodeBlock.toString .CALLX = .ok "CALLX" ∧
    CodeBlock.toString .None = .error .UnimplementedFeatureError ∧
    (∀ (t₁ t₂ : CodeBlockType) (token : String),
      CodeBlock.toString t₁ = .ok token → CodeBlock.toString t₂ = .ok token → t₁ = t₂) := by
  refine ⟨rfl, rfl, rfl, rfl, rfl, rfl, rfl, rfl, rfl, rfl, ?_⟩
  intro t₁ t₂ token h₁ h₂
  cases t₁ <;> cases t₂ <;> simp [CodeBlock.toString] at h₁ h₂ <;>
    first
      | rfl
      | (subst h₁; exact absurd h₂ (by decide))

/-- Two kinds that both give the token `PUSHCONT` are the same kind. -/
theorem toString_vocabulary_witness :
    CodeBlock.toString .PUSHCONT = .ok "PUSHCONT" ∧ CodeBlockType.PUSHCONT = .PUSHCONT :=
  ⟨toString_vocabulary.2.2.1, toString_vocabulary.2.2.2.2.2.2.2.2.2.2 _ _ "PUSHCONT" rfl rfl⟩

/-- C17 (amended): for every line, `gen` returns a node or fails with one of
three kinds of error and no other: as unimplemented, as an invariant violation
(assertion), or with the conversion error `bad_lexical_cast`.  It fails as
unimplemented exactly when the mnemonic matches none of the resolution rules: it
is no key of the table, the line is no dictionary mnemonic, and the mnemonic is
none of `TUPLE`, `UNTUPLE`, `LSHIFT`, `RSHIFT`, `MULRSHIFT`.  It fails with
`bad_lexical_cast` exactly when the rule of `TUPLE` or `UNTUPLE` is reached and
`boost::lexical_cast<int>` rejects the argument; in particular it does so when
the mnemonic is `TUPLE` or `UNTUPLE` and the argument is missing or holds a
character other than a digit and a sign.  On a line without `;` these two are
the only failures: otherwise `gen` returns a node. -/
theorem gen_failure_kinds (pureDflt : Bool) (cmd : String) :
    ((∃ g, gen pureDflt cmd = .ok g) ∨
      gen pureDflt cmd = .error .UnimplementedFeatureError ∨
      gen pureDflt cmd = .error .InternalCompilerError ∨
      gen pureDflt cmd = .error .bad_lexical_cast) ∧
    (gen pureDflt cmd = .error .UnimplementedFeatureError ↔
      opcodesAt (readOpParam cmd).1 = none ∧ dictSet cmd = false ∧
      dictReplaceOrAdd cmd = false ∧
      (readOpParam cmd).1 ∉ ["TUPLE", "UNTUPLE", "LSHIFT", "RSHIFT", "MULRSHIFT"]) ∧
    (gen pureDflt cmd = .error .bad_lexical_cast ↔
      opcodesAt (readOpParam cmd).1 = none ∧ dictSet cmd = false ∧
      dictReplaceOrAdd cmd = false ∧
      ((readOpParam cmd).1 = "TUPLE" ∨ (readOpParam cmd).1 = "UNTUPLE") ∧
      lexical_cast_int (readOpParam cmd).2 = .error .bad_lexical_cast) ∧
    (((readOpParam cmd).1 = "TUPLE" ∨ (readOpParam cmd).1 = "UNTUPLE") →
      ((readOpParam cmd).2 = "" ∨
        ∃ c ∈ (readOpParam cmd).2.data, c.isDigit = false ∧ c ≠ '+' ∧ c ≠ '-') →
      gen pureDflt cmd = .error .bad_lexical_cast) ∧
    (';' ∉ cmd.data →
      gen pureDflt cmd ≠ .error .UnimplementedFeatureError →
      gen pureDflt cmd ≠ .error .bad_lexical_cast →
      ∃ g, gen pureDflt cmd = .ok g) := by
  have hbad : ((readOpParam cmd).1 = "TUPLE" ∨ (readOpParam cmd).1 = "UNTUPLE") →
      ((readOpParam cmd).2 = "" ∨
        ∃ c ∈ (readOpParam cmd).2.data, c.isDigit = false ∧ c ≠ '+' ∧ c ≠ '-') →
      opcodesAt (readOpParam cmd).1 = none ∧ dictSet cmd = false ∧
      dictReplaceOrAdd cmd = false ∧
      ((readOpParam cmd).1 = "TUPLE" ∨ (readOpParam cmd).1 = "UNTUPLE") ∧
      lexical_cast_int (readOpParam cmd).2 = .error .bad_lexical_cast := by
    intro hop hp
    have hat : opcodesAt (readOpParam cmd).1 = none := by
      rcases hop with h | h <;> rw [h] <;> rfl
    have hl : lexical_cast_int (readOpParam cmd).2 = .error .bad_lexical_cast := by
      rcases hp with h | ⟨c, hc, hd, hp, hm⟩
      · rw [h]
        exact lexical_cast_int_empty
      · exact lexical_cast_int_non_numeric hc hd hp hm
    exact ⟨hat, (dict_rules_of_tuple hop).1, (dict_rules_of_tuple hop).2, hop, hl⟩
  rcases gen_cases pureDflt cmd with ⟨hg, hn⟩ | ⟨hg, hb⟩ | ⟨⟨g, hg⟩, hn, hb⟩
  · have hnb : ¬ ((readOpParam cmd).1 = "TUPLE" ∨ (readOpParam cmd).1 = "UNTUPLE") :=
      fun h => hn.2.2.2 (tuple_mem_rules h)
    refine ⟨Or.inr (Or.inl hg), ⟨fun _ => hn, fun _ => hg⟩, ⟨fun h => ?_, fun h => ?_⟩,
      fun hop _ => absurd hop hnb, fun _ h _ => absurd hg h⟩
    · rw [hg] at h
      exact absurd h (by simp)
    · exact absurd h.2.2.2.1 hnb
  · refine ⟨Or.inr (Or.inr (Or.inr hg)), ⟨fun h => ?_, fun h => ?_⟩, ⟨fun _ => hb, fun _ => hg⟩,
      fun _ _ => hg, fun _ _ h => absurd hg h⟩
    · rw [hg] at h
      exact absurd h (by simp)
    · exact absurd (tuple_mem_rules hb.2.2.2.1) h.2.2.2
  · refine ⟨Or.inl ⟨g, hg⟩, ⟨fun h => ?_, fun h => absurd h hn⟩,
      ⟨fun h => ?_, fun h => absurd h hb⟩, fun hop hp => absurd (hbad hop hp) hb,
      fun _ _ _ => ⟨g, hg⟩⟩
    · rw [hg] at h
      exact Except.noConfusion h
    · rw [hg] at h
      exact Except.noConfusion h

/-- The line `FOO` matches no rule and is unimplemented; the line `TUPLE` lacks
its argument and fails with the conversion error; the line `TUPLE 5` fails in
neither way and gives a node. -/
theorem gen_failure_kinds_witness :
    gen false "FOO" = .error .UnimplementedFeatureError ∧
    gen false "TUPLE" = .error .bad_lexical_cast ∧
    ∃ g, gen false "TUPLE 5" = .ok g :=
  ⟨(gen_failure_kinds false "FOO").2.1.2 ⟨rfl, rfl, rfl, by decide⟩,
   (gen_failure_kinds false "TUPLE").2.2.2.1 (Or.inl rfl) (Or.inl rfl),
   (gen_failure_kinds false "TUPLE 5").2.2.2.2 (by decide)
     (fun h => Except.noConfusion
       (h.symm.trans (rfl : gen false "TUPLE 5" = .ok ⟨"TUPLE", "5", "", 5, 1, false⟩)))
     (fun h => Except.noConfusion
       (h.symm.trans (rfl : gen false "TUPLE 5" = .ok ⟨"TUPLE", "5", "", 5, 1, false⟩)))⟩

/-- C17 as stated fails on the lines `TUPLE`, `TUPLE x` and `UNTUPLE`: the argument
is missing or not a numeral, and `gen` fails with `bad_lexical_cast`, which is
neither of the two kinds. -/
theorem gen_third_failure_kind :
    gen false "TUPLE" = .error .bad_lexical_cast ∧
    gen false "TUPLE x" = .error .bad_lexical_cast ∧
    gen false "UNTUPLE" = .error .bad_lexical_cast ∧
    Err.bad_lexical_cast ≠ Err.UnimplementedFeatureError ∧
    Err.bad_lexical_cast ≠ Err.InternalCompilerError :=
  ⟨rfl, rfl, rfl, by decide, by decide⟩

/-- C18: for every line `head ++ ";" ++ c` where `head` holds no `;` and `c` is
any text, also one with further `;` or none at all, the constructor returns a
node; its mnemonic and its argument are computed from `head` alone (they are
those of the node built from `head`), its comment is `";" ++ c`, and
`fullOpcode` ends with `";" ++ c`. -/
theorem comment_preserved (head c : String) (take ret : Int) (isPure : Bool)
    (hh : ';' ∉ head.data) :
    ∃ g : GenOpcode,
      GenOpcode.ctor (head ++ ";" ++ c) take ret isPure = .ok g ∧
      g.m_opcode = trim_copy (substrTo head.data (find head.data ' ')) ∧
      g.m_arg =
        (match find head.data ' ' with
         | some p => trim_copy (head.data.drop (p + 1))
         | none => "") ∧
      (∃ g' : GenOpcode, GenOpcode.ctor head take ret isPure = .ok g' ∧
        g'.m_opcode = g.m_opcode ∧ g'.m_arg = g.m_arg ∧ g'.m_comment = "") ∧
      g.m_comment = ";" ++ c ∧
      (";" ++ c).data <:+ g.fullOpcode.data := by
  have hd : (head ++ ";" ++ c).data = head.data ++ ';' :: c.data := by
    simp [String.data_append]
  have hsplit : split (head ++ ";" ++ c) ';' = [head, c] := split_cut hd hh
  have hcomment : ";" ++ c ≠ "" := by
    intro h
    have := congrArg String.data h
    simp [String.data_append] at this
  refine ⟨⟨trim_copy (substrTo head.data (find head.data ' ')),
      (match find head.data ' ' with
       | some p => trim_copy (head.data.drop (p + 1))
       | none => ""), ";" ++ c, take, ret, isPure⟩, ?_, rfl, rfl, ?_, rfl, ?_⟩
  · simp only [GenOpcode.ctor, hsplit, List.length]
    simp
  · refine ⟨⟨trim_copy (substrTo head.data (find head.data ' ')),
      (match find head.data ' ' with
       | some p => trim_copy (head.data.drop (p + 1))
       | none => ""), "", take, ret, isPure⟩, ?_, rfl, rfl, rfl⟩
    simp only [GenOpcode.ctor, split_single hh, List.length]
    simp
  · have hsuffix : ∀ x : String, (";" ++ c).data <:+ (x ++ (" " ++ (";" ++ c))).data :=
      fun x => ⟨x.data ++ [' '], by simp [String.data_append]⟩
    simp only [GenOpcode.fullOpcode, ne_eq, hcomment, not_false_eq_true, if_true]
    split <;> exact hsuffix _

/-- The line `STU 64;a;b`, whose comment text holds a further `;`: the line is
cut at the first `;` and the comment is `;a;b`. -/
theorem comment_preserved_witness :
    ∃ g : GenOpcode,
      GenOpcode.ctor "STU 64;a;b" 2 1 false = .ok g ∧
      g.m_opcode = "STU" ∧ g.m_arg = "64" ∧
      g.m_comment = ";a;b" ∧
      (";a;b").data <:+ g.fullOpcode.data := by
  obtain ⟨g, h₁, h₂, h₃, -, h₄, h₅⟩ :=
    comment_preserved "STU 64" "a;b" 2 1 false (by decide)
  exact ⟨g, h₁, h₂, h₃, h₄, h₅⟩

/-- C19 (amended): on every line on which `gen` returns a node, `take` and `ret`
are not negative, provided the argument of a `TUPLE` or `UNTUPLE` line does not
start with a minus sign. -/
theorem gen_arity_nonneg (pureDflt : Bool) (cmd : String) (g : GenOpcode)
    (h : gen pureDflt cmd = .ok g)
    (harg : ((readOpParam cmd).1 = "TUPLE" ∨ (readOpParam cmd).1 = "UNTUPLE") →
      (readOpParam cmd).2.data.head? ≠ some '-') :
    0 ≤ g.m_take ∧ 0 ≤ g.m_ret := by
  have hfields : ∀ (take ret : Int) (isPure : Bool), 0 ≤ take → 0 ≤ ret →
      GenOpcode.ctor cmd take ret isPure = .ok g → 0 ≤ g.m_take ∧ 0 ≤ g.m_ret := by
    intro take ret isPure ht hr hg
    obtain ⟨h₁, h₂, -⟩ := ctor_fields hg
    rw [h₁, h₂]
    exact ⟨ht, hr⟩
  rw [gen_unfold] at h
  cases hat : opcodesAt (readOpParam cmd).1 with
  | some params =>
    rw [hat] at h
    have hp := opcodes_nonneg _ (lookup_mem hat)
    exact hfields _ _ _ hp.1 hp.2 h
  | none =>
    rw [hat] at h
    simp only at h
    split at h
    · exact hfields _ _ _ (by decide) (by decide) h
    split at h
    · exact hfields _ _ _ (by decide) (by decide) h
    split at h
    · rename_i hop
      cases hl : lexical_cast_int (readOpParam cmd).2 with
      | error e => rw [hl] at h; exact Except.noConfusion h
      | ok k =>
        rw [hl] at h
        exact hfields _ _ _ (lexical_cast_int_nonneg hl (harg (Or.inl hop))) (by decide) h
    split at h
    · rename_i hop
      cases hl : lexical_cast_int (readOpParam cmd).2 with
      | error e => rw [hl] at h; exact Except.noConfusion h
      | ok k =>
        rw [hl] at h
        exact hfields _ _ _ (by decide) (lexical_cast_int_nonneg hl (harg (Or.inr hop))) h
    split at h
    · split at h <;> exact hfields _ _ _ (by decide) (by decide) h
    split at h
    · split at h <;> exact hfields _ _ _ (by decide) (by decide) h
    · exact Except.noConfusion h

/-- The line `TUPLE 5`: the counts 5 and 1. -/
theorem gen_arity_nonneg_witness :
    gen false "TUPLE 5" = .ok ⟨"TUPLE", "5", "", 5, 1, false⟩ ∧
    ((0 : Int) ≤ (⟨"TUPLE", "5", "", 5, 1, false⟩ : GenOpcode).m_take ∧
      (0 : Int) ≤ (⟨"TUPLE", "5", "", 5, 1, false⟩ : GenOpcode).m_ret) :=
  ⟨rfl,
   gen_arity_nonneg false "TUPLE 5" ⟨"TUPLE", "5", "", 5, 1, false⟩ rfl (fun _ => by decide)⟩

/-- C19 as stated fails on the lines `TUPLE -1` and `UNTUPLE -3`: `gen` returns a
node with `take = -1`, respectively `ret = -3`. -/
theorem gen_negative_arity :
    gen false "TUPLE -1" = .ok ⟨"TUPLE", "-1", "", -1, 1, false⟩ ∧
    gen false "UNTUPLE -3" = .ok ⟨"UNTUPLE", "-3", "", 1, -3, false⟩ ∧
    ¬ (0 : Int) ≤ (⟨"TUPLE", "-1", "", -1, 1, false⟩ : GenOpcode).m_take ∧
    ¬ (0 : Int) ≤ (⟨"UNTUPLE", "-3", "", 1, -3, false⟩ : GenOpcode).m_ret :=
  ⟨rfl, rfl, by decide, by decide⟩

/-- C20: `gen` finds the mnemonic as the first word of the line, the constructor as
what precedes the first space.  On ` STU 64` (a leading space) `gen` resolves
`STU` with the argument `64`, and the node has the opcode `""` and the argument
`STU 64`; on `STU<tab>64` `gen` resolves `STU` with the argument `64`, and the
node has the opcode `STU<tab>64` and no argument. -/
theorem gen_opcode_mismatch (pureDflt : Bool) :
    readOpParam " STU 64" = ("STU", "64") ∧
    gen pureDflt " STU 64" = .ok ⟨"", "STU 64", "", 2, 1, false⟩ ∧
    readOpParam "STU\t64" = ("STU", "64") ∧
    gen pureDflt "STU\t64" = .ok ⟨"STU\t64", "", "", 2, 1, false⟩ ∧
    gen pureDflt "STU 64" = .ok ⟨"STU", "64", "", 2, 1, false⟩ :=
  ⟨rfl, rfl, rfl, rfl, rfl⟩

end TvmAst
